import Mathlib

/-!
Verification of the Defect-Dashboard workflow engine (src/dashboard.py).

The Python program is shallowly embedded:

- Python/JSON values are the inductive type PyVal (None, bool, numbers as ℚ,
  str, list, dict as an ordered association list with string keys, mirroring
  the insertion-ordered dicts the program builds from JSON).
- Python truthiness, str(), bool(), list(), float() and dict get/set/setdefault
  are modelled by truthy, pyStr, pyBool, pyList, pyFloat, dget/dset and
  appendToListField.  Operations that can raise (list() of a non-iterable,
  .append on a non-list, float() of a non-number) return Option, with
  Option.none standing for the raised exception.
- datetime.now().isoformat() and str(uuid.uuid4()) are nondeterministic inputs;
  every function that calls them takes the produced strings as parameters
  (fid for a fresh uuid, now for the clock reading).  Theorems quantify over
  them.  Distinct _now_iso() calls inside one operation, which differ only by
  microseconds, are modelled by the one now parameter of that call.
- save_data writes the collection to disk and returns its argument unchanged;
  engine operations are modelled as functions on the in-memory collection that
  also report how many save_data calls they performed.
- Python float arithmetic is modelled over ℚ; round(x, 2) is round2
  (round-half-to-even, as Python rounds).  str() of a float is approximated by
  pyFloatRepr (exact for decimal rationals); the program only uses it to build
  comment text.
-/

/-- A Python/JSON value as handled by dashboard.py. -/
inductive PyVal where
  | none
  | bool (b : Bool)
  | num (q : ℚ)
  | str (s : String)
  | list (xs : List PyVal)
  | dict (kvs : List (String × PyVal))

/-- Python truthiness (bool(x) as used by if/or). -/
def truthy : PyVal → Bool
  | .none => false
  | .bool b => b
  | .num q => q != 0
  | .str s => s ≠ ""
  | .list xs => !xs.isEmpty
  | .dict kvs => !kvs.isEmpty

/-- Python x or d. -/
def pyOr (a d : PyVal) : PyVal := if truthy a then a else d

/-- Python bool(x). -/
def pyBool (a : PyVal) : PyVal := .bool (truthy a)

/-- Python whitespace characters stripped by str.strip() (ASCII subset; the
program only strips form-field text). -/
def isPySpace (c : Char) : Bool :=
  c = ' ' || c = '\t' || c = '\n' || c = '\r' || c = Char.ofNat 11 || c = Char.ofNat 12

/-- str.strip() on the character list: drop a leading and a trailing
whitespace run. -/
def stripChars (l : List Char) : List Char :=
  ((l.dropWhile isPySpace).reverse.dropWhile isPySpace).reverse

/-- Python str.strip(). -/
def pyStrip (s : String) : String := String.mk (stripChars s.data)

/-- Smallest exponent k with d dividing 10 to the k, if one exists below 40;
used to print decimal rationals the way Python prints the floats the program
computes. -/
def decExp (d : Nat) : Option Nat := (List.range 40).find? (fun k => d ∣ 10 ^ k)

/-- Digits of a natural number, then trailing-zero stripping, for the
fractional part of a float literal. -/
def fracDigits (n k : Nat) : String :=
  let padded := Nat.toDigits 10 n
  let pad := List.replicate (k - padded.length) '0' ++ padded
  let trimmed := (pad.reverse.dropWhile (fun c => c = '0')).reverse
  if trimmed.isEmpty then "0" else String.mk trimmed

/-- Python str() of the floats the program computes (exact on decimal
rationals, which is all the engine produces; other rationals fall back to a
fraction rendering). -/
def pyFloatRepr (q : ℚ) : String :=
  let sign := if q < 0 then "-" else ""
  match decExp q.den with
  | some 0 => sign ++ String.mk (Nat.toDigits 10 q.num.natAbs) ++ ".0"
  | some k =>
      let scaled := q.num.natAbs * (10 ^ k / q.den)
      let ip := scaled / 10 ^ k
      let fp := scaled % 10 ^ k
      sign ++ String.mk (Nat.toDigits 10 ip) ++ "." ++ fracDigits fp k
  | Option.none => sign ++ String.mk (Nat.toDigits 10 q.num.natAbs) ++ "/" ++ String.mk (Nat.toDigits 10 q.den)

mutual

/-- Python str(x); non-string scalars render as Python prints them, containers
approximately (element text, not repr quoting) — the program never inspects
that text. -/
def pyStr : PyVal → String
  | .none => "None"
  | .bool true => "True"
  | .bool false => "False"
  | .num q => pyFloatRepr q
  | .str s => s
  | .list xs => "[" ++ String.intercalate ", " (pyStrList xs) ++ "]"
  | .dict kvs => "\x7b" ++ String.intercalate ", " (pyStrDict kvs) ++ "\x7d"

def pyStrList : List PyVal → List String
  | [] => []
  | v :: vs => pyStr v :: pyStrList vs

def pyStrDict : List (String × PyVal) → List String
  | [] => []
  | kv :: kvs => (kv.1 ++ ": " ++ pyStr kv.2) :: pyStrDict kvs

end

/-- Python list(x): lists copy, strings iterate characters, dicts iterate
keys; other values raise TypeError (Option.none). -/
def pyList : PyVal → Option (List PyVal)
  | .list xs => some xs
  | .str s => some (s.data.map (fun c => PyVal.str (String.singleton c)))
  | .dict kvs => some (kvs.map (fun kv => PyVal.str kv.1))
  | _ => Option.none

/-- Digit run to a natural number. -/
def natOfDigits (l : List Char) : Nat :=
  l.foldl (fun a c => a * 10 + (c.toNat - 48)) 0

/-- Unsigned float literal: digits, optionally a dot and digits, at least one
digit overall. -/
def parseUnsignedFloat (l : List Char) : Option ℚ :=
  let ip := l.takeWhile Char.isDigit
  let rest := l.dropWhile Char.isDigit
  match rest with
  | [] => if ip.isEmpty then Option.none else some ((natOfDigits ip : ℚ))
  | '.' :: frac =>
      if frac.all Char.isDigit && !(ip.isEmpty && frac.isEmpty) then
        some ((natOfDigits ip : ℚ) + (natOfDigits frac : ℚ) / ((10 : ℚ) ^ frac.length))
      else Option.none
  | _ => Option.none

/-- Python float(s) on a string: surrounding whitespace ignored, optional
sign, decimal literal (exponent/inf/nan forms, which the program never feeds
it, are omitted). -/
def parseFloatStr (s : String) : Option ℚ :=
  match stripChars s.data with
  | '-' :: rest => (parseUnsignedFloat rest).map (fun q => -q)
  | '+' :: rest => parseUnsignedFloat rest
  | l => parseUnsignedFloat l

/-- Python float(x): numbers pass through, bools become 0/1, strings parse,
everything else raises (Option.none). -/
def pyFloat : PyVal → Option ℚ
  | .num q => some q
  | .bool b => some (if b then 1 else 0)
  | .str s => parseFloatStr s
  | _ => Option.none

/-- Round to the nearest integer, ties to even, as Python round() does. -/
def roundHalfEven (q : ℚ) : ℤ :=
  let f := Int.floor q
  let r := q - (f : ℚ)
  if r < 1 / 2 then f
  else if 1 / 2 < r then f + 1
  else if f % 2 = 0 then f else f + 1

/-- Python round(x, 2). -/
def round2 (q : ℚ) : ℚ := ((roundHalfEven (q * 100) : ℤ) : ℚ) / 100

/-- Dict lookup, first occurrence (Python dicts have unique keys; JSON keeps
the last duplicate, which load gives us already deduplicated). -/
def dget : List (String × PyVal) → String → Option PyVal
  | [], _ => Option.none
  | (k', v') :: rest, k => if k' = k then some v' else dget rest k

/-- Python x.get(k, d). -/
def dgetD (kvs : List (String × PyVal)) (k : String) (d : PyVal) : PyVal :=
  (dget kvs k).getD d

/-- Dict assignment d[k] = v: replace in place, or append a new key at the
end, as insertion-ordered Python dicts do. -/
def dset : List (String × PyVal) → String → PyVal → List (String × PyVal)
  | [], k, v => [(k, v)]
  | (k', v') :: rest, k, v =>
      if k' = k then (k, v) :: rest else (k', v') :: dset rest k v

/-- The STATUSES constant. -/
def STATUSES : List String := ["ready", "inprogress", "completed"]

/-- Python membership of a value in the STATUSES list (== against each
string; only an equal string matches). -/
def isValidStatus : PyVal → Bool
  | .str s => s = "ready" || s = "inprogress" || s = "completed"
  | _ => false

/-- The final status fixup of _coerce_item: `if base["status"] not in
STATUSES: base["status"] = "ready"`. -/
def statusNorm (v : PyVal) : PyVal := if isValidStatus v then v else .str "ready"

/-- The comment-history raw value of _coerce_item: x.get("comment_history")
when that is a list, else []. -/
def chListOf (kvs : List (String × PyVal)) : List PyVal :=
  match dget kvs "comment_history" with
  | some (.list l) => l
  | _ => []

/-- One normalized comment-history entry (the body of the norm_ch loop of
_coerce_item) for a dict entry; Option.none when list() of the attachments
value raises. -/
def normEntry (now : String) (ekvs : List (String × PyVal)) : Option PyVal :=
  match pyList (pyOr (dgetD ekvs "attachments" (.list [])) (.list [])) with
  | Option.none => Option.none
  | some atts => some (.dict [
      ("actor", .str (pyStr (dgetD ekvs "actor" (.str "system")))),
      ("comment", .str (pyStr (pyOr (dgetD ekvs "comment" (.str "")) (.str "")))),
      ("attachments", .list atts),
      ("at", pyOr (dgetD ekvs "at" PyVal.none) (.str now))])

/-- The norm_ch loop of _coerce_item: skip non-dict entries, normalize the
rest in order. -/
def normHistory (now : String) : List PyVal → Option (List PyVal)
  | [] => some []
  | .dict ekvs :: rest =>
      match normEntry now ekvs with
      | Option.none => Option.none
      | some e =>
          match normHistory now rest with
          | Option.none => Option.none
          | some l => some (e :: l)
  | _ :: rest => normHistory now rest

/-- _coerce_item from dashboard.py: coerce an arbitrary value to a
fully-populated item dict (fid models str(uuid.uuid4()), now models
_now_iso()); Option.none when list() of an attachments value raises. -/
def _coerce_item (fid now : String) (x : PyVal) : Option PyVal :=
  match x with
  | .dict kvs =>
    match normHistory now (chListOf kvs) with
    | Option.none => Option.none
    | some normCh =>
      match pyList (dgetD kvs "attachments" (.list [])) with
      | Option.none => Option.none
      | some atts =>
        some (.dict [
          ("id", dgetD kvs "id" (.str fid)),
          ("type", pyOr (dgetD kvs "type" PyVal.none) (.str "task")),
          ("title", .str (pyStrip (pyStr (dgetD kvs "title" (.str ""))))),
          ("client", .str (pyStrip (pyStr (dgetD kvs "client" (.str ""))))),
          ("project", .str (pyStrip (pyStr (dgetD kvs "project" (.str ""))))),
          ("billable", pyBool (dgetD kvs "billable" (.bool true))),
          ("status", statusNorm (pyOr (dgetD kvs "status" PyVal.none) (.str "ready"))),
          ("hours", dgetD kvs "hours" PyVal.none),
          ("rate_at_completion", dgetD kvs "rate_at_completion" PyVal.none),
          ("amount", dgetD kvs "amount" PyVal.none),
          ("created_at", pyOr (dgetD kvs "created_at" PyVal.none) (.str now)),
          ("updated_at", pyOr (dgetD kvs "updated_at" PyVal.none) (.str now)),
          ("completed_at", dgetD kvs "completed_at" PyVal.none),
          ("archived", pyBool (dgetD kvs "archived" (.bool false))),
          ("pr_url", .str (pyStrip (pyStr (dgetD kvs "pr_url" (.str ""))))),
          ("owner_approved", pyBool (dgetD kvs "owner_approved" (.bool false))),
          ("owner_approved_at", dgetD kvs "owner_approved_at" PyVal.none),
          ("owner_approved_by", dgetD kvs "owner_approved_by" PyVal.none),
          ("review_requested", pyBool (dgetD kvs "review_requested" (.bool false))),
          ("review_comments", .str (pyStrip (pyStr (dgetD kvs "review_comments" (.str ""))))),
          ("review_requested_at", dgetD kvs "review_requested_at" PyVal.none),
          ("dev_response_comments", .str (pyStrip (pyStr (dgetD kvs "dev_response_comments" (.str ""))))),
          ("dev_response_at", dgetD kvs "dev_response_at" PyVal.none),
          ("attachments", .list atts),
          ("comment_history", .list normCh)])
  | _ =>
    some (.dict [
      ("id", .str fid),
      ("type", pyOr (.str "task") (.str "task")),
      ("title", .str (pyStrip (pyStr (.str "")))),
      ("client", .str (pyStrip (pyStr (.str "")))),
      ("project", .str (pyStrip (pyStr (.str "")))),
      ("billable", pyBool (.bool true)),
      ("status", statusNorm (pyOr (.str "ready") (.str "ready"))),
      ("hours", PyVal.none),
      ("rate_at_completion", PyVal.none),
      ("amount", PyVal.none),
      ("created_at", pyOr (.str now) (.str now)),
      ("updated_at", pyOr (.str now) (.str now)),
      ("completed_at", PyVal.none),
      ("archived", pyBool (.bool false)),
      ("pr_url", .str (pyStrip (pyStr (.str "")))),
      ("owner_approved", pyBool (.bool false)),
      ("owner_approved_at", PyVal.none),
      ("owner_approved_by", PyVal.none),
      ("review_requested", pyBool (.bool false)),
      ("review_comments", .str (pyStrip (pyStr (.str "")))),
      ("review_requested_at", PyVal.none),
      ("dev_response_comments", .str (pyStrip (pyStr (.str "")))),
      ("dev_response_at", PyVal.none),
      ("attachments", .list []),
      ("comment_history", .list [])])

/-- Is the value a dict (isinstance(x, dict)). -/
def isDictV : PyVal → Bool
  | .dict _ => true
  | _ => false

/-- A list comprehension [_coerce_item(d) for d in xs if isinstance(d, dict)];
the first raised exception aborts it. -/
def coerceDicts (fid now : String) : List PyVal → Option (List PyVal)
  | [] => some []
  | x :: rest =>
      if isDictV x then do
        let y ← _coerce_item fid now x
        let l ← coerceDicts fid now rest
        some (y :: l)
      else coerceDicts fid now rest

/-- A list comprehension [_coerce_item(v) for v in vals] without a guard. -/
def coerceAll (fid now : String) : List PyVal → Option (List PyVal)
  | [] => some []
  | x :: rest => do
      let y ← _coerce_item fid now x
      let l ← coerceAll fid now rest
      some (y :: l)

/-- _normalize_loaded from dashboard.py: accept a bare list, a dict with an
"items" list, or an all-dict-values mapping; anything else yields []. -/
def _normalize_loaded (fid now : String) (obj : PyVal) : Option (List PyVal) :=
  match obj with
  | .list xs => coerceDicts fid now xs
  | .dict kvs =>
    match dget kvs "items" with
    | some (.list xs) => coerceDicts fid now xs
    | _ =>
      let vals := kvs.map (fun kv => kv.2)
      if !vals.isEmpty && vals.all isDictV then coerceAll fid now vals else some []
  | _ => some []

/-- load_data from dashboard.py.  The parsed argument models the on-disk
state: Option.none is a missing file or a json.load failure; some raw is the
parsed document.  The try/except around parsing and normalization is the
getD []. -/
def load_data (fid now : String) (parsed : Option PyVal) : List PyVal :=
  match parsed with
  | Option.none => []
  | some raw => (_normalize_loaded fid now raw).getD []

/-- sanitize_items from dashboard.py: non-lists become [], dict entries are
coerced, other entries dropped (an exception from _coerce_item propagates). -/
def sanitize_items (fid now : String) (items : PyVal) : Option (List PyVal) :=
  match items with
  | .list xs => coerceDicts fid now xs
  | _ => some []

/-!
## Workflow engine operations

Each Python operation scans st.session_state items for the first dict whose
"id" equals the given item_id, mutates that dict in place and usually calls
save_data.  The model returns Option (collection × number of save_data calls);
Option.none models a raised exception (mutating a non-list comment_history or
attachments field).  When no item matches, the Python functions return None
without touching anything: the model returns the collection unchanged with 0
saves.  Uploaded files are modelled by the path strings _save_uploaded_file
would return for them (Option.none entries are the None files the loops
skip); file bytes never influence the item state.
-/

/-- isinstance(it, dict) and it.get("id") == item_id (a string compared by
Python == : only an equal string matches). -/
def idMatches (v : PyVal) (tid : String) : Bool :=
  match v with
  | .dict kvs =>
      match dget kvs "id" with
      | some (.str s) => s = tid
      | _ => false
  | _ => false

/-- Index of the first matching element, None when the scan falls through. -/
def findIdxOpt (p : PyVal → Bool) : List PyVal → Option Nat
  | [] => Option.none
  | a :: t => if p a then some 0 else (findIdxOpt p t).map (fun i => i + 1)

/-- Python it.setdefault(k, []).append(v): missing key becomes [v] (inserted
at the end of the dict), a list value is extended, any other value raises
AttributeError (Option.none). -/
def appendToListField (kvs : List (String × PyVal)) (k : String) (v : PyVal) :
    Option (List (String × PyVal)) :=
  match dget kvs k with
  | Option.none => some (dset kvs k (.list [v]))
  | some (.list xs) => some (dset kvs k (.list (xs ++ [v])))
  | some _ => Option.none

/-- A string compared by Python == against a value. -/
def isStrEq (s : String) : PyVal → Bool
  | .str t => t = s
  | _ => false

/-- needle appears as a contiguous substring of hay. -/
def isSubList (needle hay : List Char) : Bool :=
  hay.tails.any (fun t => needle.isPrefixOf t)

/-- Python s in container for a string s: list membership by ==, substring
test on a string, key membership on a dict; TypeError otherwise. -/
def pyContains (container : PyVal) (s : String) : Option Bool :=
  match container with
  | .list xs => some (xs.any (isStrEq s))
  | .str t => some (isSubList s.data t.data)
  | .dict kvs => some (kvs.any (fun kv => kv.1 = s))
  | _ => Option.none

/-- A comment-history entry as the engine builds them. -/
def mkEntry (actor comment : String) (atts : List PyVal) (at_ : String) : PyVal :=
  .dict [("actor", .str actor), ("comment", .str comment),
         ("attachments", .list atts), ("at", .str at_)]

/-- The attachment-saving loop of append_history: each non-None file is
saved (its resulting path is the list element), collected into saved_paths,
and appended to it["attachments"] unless already present. -/
def appendFilesLoop : List (Option String) → List (String × PyVal) →
    Option (List String × List (String × PyVal))
  | [], kvs => some ([], kvs)
  | Option.none :: rest, kvs => appendFilesLoop rest kvs
  | some p :: rest, kvs =>
      match pyContains (dgetD kvs "attachments" (.list [])) p with
      | Option.none => Option.none
      | some c =>
        match (match c with
               | true => some kvs
               | false => appendToListField kvs "attachments" (.str p)) with
        | Option.none => Option.none
        | some kvs1 =>
          match appendFilesLoop rest kvs1 with
          | Option.none => Option.none
          | some (ps, kvs2) => some (p :: ps, kvs2)

/-- The body of append_history on the matched item dict: save attachments,
append the entry, bump updated_at. -/
def appendHistoryFields (actor comment : String) (files : List (Option String))
    (now : String) (kvs : List (String × PyVal)) : Option (List (String × PyVal)) :=
  match appendFilesLoop files kvs with
  | Option.none => Option.none
  | some (ps, kvs1) =>
    match appendToListField kvs1 "comment_history"
        (mkEntry actor comment (ps.map PyVal.str) now) with
    | Option.none => Option.none
    | some kvs2 => some (dset kvs2 "updated_at" (.str now))

/-- Apply an item-dict transformation to the first matching item, report the
given number of save_data calls; unmatched scans return the collection
unchanged with 0 saves. -/
def opOnItem (f : List (String × PyVal) → Option (List (String × PyVal)))
    (saves : Nat) (tid : String) (items : List PyVal) : Option (List PyVal × Nat) :=
  match findIdxOpt (fun it => idMatches it tid) items with
  | Option.none => some (items, 0)
  | some i =>
      match items[i]? with
      | some (.dict kvs) => (f kvs).map (fun kvs' => (items.set i (.dict kvs'), saves))
      | _ => some (items, 0)

/-- append_history from dashboard.py (saves once when it finds the item). -/
def append_history (items : List PyVal) (tid actor comment : String)
    (files : List (Option String)) (now : String) : Option (List PyVal × Nat) :=
  opOnItem (appendHistoryFields actor comment files now) 1 tid items

/-- The field updates of set_status on the matched item. -/
def setStatusFields (newStatus now : String) (kvs : List (String × PyVal)) :
    List (String × PyVal) :=
  let k := dset kvs "status" (.str newStatus)
  let k := dset k "updated_at" (.str now)
  if newStatus ≠ "completed" then dset k "completed_at" PyVal.none else k

/-- set_status from dashboard.py (never saves; callers save afterwards). -/
def set_status (items : List PyVal) (tid newStatus now : String) :
    Option (List PyVal × Nat) :=
  opOnItem (fun kvs => some (setStatusFields newStatus now kvs)) 0 tid items

/-- The field updates of set_hours_and_complete on the matched item, ending
with the inline history append. -/
def completeFields (hours rate : ℚ) (now : String) (kvs : List (String × PyVal)) :
    Option (List (String × PyVal)) :=
  let k := dset kvs "hours" (.num hours)
  let k := dset k "status" (.str "completed")
  let k := dset k "completed_at" (.str now)
  let k := dset k "updated_at" (.str now)
  let k := dset k "rate_at_completion" (.num rate)
  let k := dset k "amount" (.num (round2 (hours * rate)))
  let k := dset k "archived" (.bool true)
  let k := dset k "owner_approved" (.bool false)
  let k := dset k "owner_approved_at" PyVal.none
  let k := dset k "owner_approved_by" PyVal.none
  let k := dset k "review_requested" (.bool false)
  let k := dset k "review_comments" (.str "")
  let k := dset k "review_requested_at" PyVal.none
  appendToListField k "comment_history"
    (mkEntry "dev" ("Completed by developer: " ++ pyFloatRepr hours ++ "h @ " ++ pyFloatRepr rate) [] now)

/-- set_hours_and_complete from dashboard.py: hours and rate_now are the
float arguments; one save_data call on success. -/
def set_hours_and_complete (items : List PyVal) (tid : String) (hours rate : ℚ)
    (now : String) : Option (List PyVal × Nat) :=
  opOnItem (completeFields hours rate now) 1 tid items

/-- The direct field updates of request_review before its append_history
call. -/
def requestReviewFields (comment now : String) (kvs : List (String × PyVal)) :
    List (String × PyVal) :=
  let k := dset kvs "review_requested" (.bool true)
  let k := dset k "review_comments" (.str comment)
  let k := dset k "review_requested_at" (.str now)
  let k := dset k "owner_approved" (.bool false)
  let k := dset k "owner_approved_at" PyVal.none
  let k := dset k "owner_approved_by" PyVal.none
  let k := dset k "status" (.str "inprogress")
  dset k "archived" (.bool false)

/-- request_review from dashboard.py: set the review fields on the matched
item (the loop variable aliases the list element, so the update lands in the
collection), then call append_history on the collection — which rescans and
hits the same first match — then save once more. -/
def request_review (items : List PyVal) (tid comment : String)
    (files : List (Option String)) (now : String) : Option (List PyVal × Nat) :=
  match findIdxOpt (fun it => idMatches it tid) items with
  | Option.none => some (items, 0)
  | some i =>
      match items[i]? with
      | some (.dict kvs) =>
          match append_history (items.set i (.dict (requestReviewFields comment now kvs)))
              tid "owner" comment files now with
          | Option.none => Option.none
          | some (items2, m) => some (items2, m + 1)
      | _ => some (items, 0)

/-- Python x is not None on a dict lookup (missing keys read as None via
get). -/
def isNotNone : Option PyVal → Bool
  | some PyVal.none => false
  | some _ => true
  | Option.none => false

/-- The optional hours/rate assignments of submit_back_to_owner (float() of
the optional float arguments cannot raise). -/
def submitHoursRate (hoursArg rateArg : Option ℚ) (kvs : List (String × PyVal)) :
    List (String × PyVal) :=
  let k := match hoursArg with
    | some h => dset kvs "hours" (.num h)
    | Option.none => kvs
  match rateArg with
  | some r => dset k "rate_at_completion" (.num r)
  | Option.none => k

/-- The amount recomputation of submit_back_to_owner: when both fields are
non-None and float() succeeds on both, store round(h * r, 2); the try/except
pass keeps the dict unchanged otherwise. -/
def submitRecompute (kvs : List (String × PyVal)) : List (String × PyVal) :=
  if isNotNone (dget kvs "hours") && isNotNone (dget kvs "rate_at_completion") then
    match pyFloat (dgetD kvs "hours" PyVal.none), pyFloat (dgetD kvs "rate_at_completion" PyVal.none) with
    | some h, some r => dset kvs "amount" (.num (round2 (h * r)))
    | _, _ => kvs
  else kvs

/-- The field updates of submit_back_to_owner after its append_history call,
on the (already history-extended) matched item dict. -/
def submitBackFields (comment : String) (hoursArg rateArg : Option ℚ)
    (now : String) (kvs : List (String × PyVal)) : List (String × PyVal) :=
  let k := dset kvs "dev_response_comments" (.str comment)
  let k := dset k "dev_response_at" (.str now)
  let k := submitHoursRate hoursArg rateArg k
  let k := submitRecompute k
  let k := dset k "status" (.str "completed")
  let k := dset k "completed_at" (.str now)
  let k := dset k "updated_at" (.str now)
  let k := dset k "archived" (.bool true)
  let k := dset k "review_requested" (.bool false)
  let k := dset k "review_comments" (.str "")
  let k := dset k "review_requested_at" PyVal.none
  let k := dset k "owner_approved" (.bool false)
  let k := dset k "owner_approved_at" PyVal.none
  dset k "owner_approved_by" PyVal.none

/-- submit_back_to_owner from dashboard.py: append the developer comment via
append_history (which rescans the collection and hits the same matched item,
still at the same index), then update that item (the loop variable aliases
it) and save once more. -/
def submit_back_to_owner (items : List PyVal) (tid comment : String)
    (files : List (Option String)) (hoursArg rateArg : Option ℚ) (now : String) :
    Option (List PyVal × Nat) :=
  match findIdxOpt (fun it => idMatches it tid) items with
  | Option.none => some (items, 0)
  | some i =>
      match items[i]? with
      | some (.dict _) =>
          match append_history items tid "dev" comment files now with
          | Option.none => Option.none
          | some (items1, m) =>
            match items1[i]? with
            | some (.dict kvs1) =>
                some (items1.set i (.dict (submitBackFields comment hoursArg rateArg now kvs1)), m + 1)
            | _ => some (items1, m)
      | _ => some (items, 0)

/-- The direct field updates of approve_item before its append_history
call. -/
def approveFields (now : String) (kvs : List (String × PyVal)) :
    List (String × PyVal) :=
  let k := dset kvs "owner_approved" (.bool true)
  let k := dset k "owner_approved_at" (.str now)
  dset k "owner_approved_by" PyVal.none

/-- approve_item from dashboard.py: set the approval fields on the matched
item (aliased into the collection), append_history "Approved" as owner (no
files), bump updated_at on the same item, save once more. -/
def approve_item (items : List PyVal) (tid now : String) :
    Option (List PyVal × Nat) :=
  match findIdxOpt (fun it => idMatches it tid) items with
  | Option.none => some (items, 0)
  | some i =>
      match items[i]? with
      | some (.dict kvs) =>
          match append_history (items.set i (.dict (approveFields now kvs)))
              tid "owner" "Approved" [] now with
          | Option.none => Option.none
          | some (items2, m) =>
            match items2[i]? with
            | some (.dict kvs2) =>
                some (items2.set i (.dict (dset kvs2 "updated_at" (.str now))), m + 1)
            | _ => some (items2, m)
      | _ => some (items, 0)

/-- The direct field updates of revoke_approval before its append_history
call. -/
def revokeFields (kvs : List (String × PyVal)) : List (String × PyVal) :=
  let k := dset kvs "owner_approved" (.bool false)
  let k := dset k "owner_approved_at" PyVal.none
  dset k "owner_approved_by" PyVal.none

/-- revoke_approval from dashboard.py, same shape as approve_item. -/
def revoke_approval (items : List PyVal) (tid now : String) :
    Option (List PyVal × Nat) :=
  match findIdxOpt (fun it => idMatches it tid) items with
  | Option.none => some (items, 0)
  | some i =>
      match items[i]? with
      | some (.dict kvs) =>
          match append_history (items.set i (.dict (revokeFields kvs)))
              tid "owner" "Revoked approval" [] now with
          | Option.none => Option.none
          | some (items2, m) =>
            match items2[i]? with
            | some (.dict kvs2) =>
                some (items2.set i (.dict (dset kvs2 "updated_at" (.str now))), m + 1)
            | _ => some (items2, m)
      | _ => some (items, 0)

/-- The engine operations C7 quantifies over, with their arguments. -/
inductive Op where
  | appendHist (tid actor comment : String) (files : List (Option String)) (now : String)
  | complete (tid : String) (hours rate : ℚ) (now : String)
  | reqChanges (tid comment : String) (files : List (Option String)) (now : String)
  | submitBack (tid comment : String) (files : List (Option String))
      (hoursArg rateArg : Option ℚ) (now : String)
  | approve (tid now : String)
  | revoke (tid now : String)

/-- Run one engine operation on the collection (the save count is not part
of the collection state). -/
def applyOp (items : List PyVal) : Op → Option (List PyVal)
  | .appendHist tid actor comment files now =>
      (append_history items tid actor comment files now).map (fun r => r.1)
  | .complete tid hours rate now =>
      (set_hours_and_complete items tid hours rate now).map (fun r => r.1)
  | .reqChanges tid comment files now =>
      (request_review items tid comment files now).map (fun r => r.1)
  | .submitBack tid comment files hoursArg rateArg now =>
      (submit_back_to_owner items tid comment files hoursArg rateArg now).map (fun r => r.1)
  | .approve tid now => (approve_item items tid now).map (fun r => r.1)
  | .revoke tid now => (revoke_approval items tid now).map (fun r => r.1)

/-- Run a sequence of engine operations; a raised exception aborts the
run. -/
def runOps (items : List PyVal) (ops : List Op) : Option (List PyVal) :=
  ops.foldlM applyOp items

/-- The comment_history list of an item as the ledger claims read it (non-
list or missing histories read as empty). -/
def histListV : PyVal → List PyVal
  | .dict kvs =>
      match dget kvs "comment_history" with
      | some (.list l) => l
      | _ => []
  | _ => []

/-- Does a raw record carry a valid status already (a dict whose "status"
value is one of STATUSES)?  Used to state the coercion claim. -/
def rawStatusValid : PyVal → Bool
  | .dict kvs =>
      (match dget kvs "status" with
       | some v => isValidStatus v
       | Option.none => false)
  | _ => false

/-- The three on-disk shapes _normalize_loaded recognizes: a bare list, a
dict with an "items" list, or a non-empty all-dict-values mapping. -/
def recognizedShape : PyVal → Bool
  | .list _ => true
  | .dict kvs =>
      (match dget kvs "items" with
       | some (.list _) => true
       | _ => !(kvs.map (fun kv => kv.2)).isEmpty && (kvs.map (fun kv => kv.2)).all isDictV)
  | _ => false

/-- Read a field of an optional item: Option.none unless the item is a dict
with that key. -/
def fieldOf (v : Option PyVal) (k : String) : Option PyVal :=
  match v with
  | some (.dict kvs) => dget kvs k
  | _ => Option.none

/-!
## Concrete demonstration data

Small collections used as inputs of witness and counterexample theorems.
-/

/-- An in-progress item as new_item plus set_status would produce it, with
the fields the demonstrations read. -/
def demoInprog : PyVal := .dict [
  ("id", .str "a"), ("status", .str "inprogress"), ("completed_at", PyVal.none),
  ("attachments", .list []), ("comment_history", .list [])]

/-- A completed item carrying a completed_at timestamp. -/
def demoCompleted : PyVal := .dict [
  ("id", .str "b"), ("status", .str "completed"), ("completed_at", .str "2024-01-01T10:00:00"),
  ("attachments", .list []), ("comment_history", .list [])]

/-- A one-item collection around demoInprog. -/
def demoItems1 : List PyVal := [demoInprog]

/-- A one-item collection around demoCompleted. -/
def demoItems2 : List PyVal := [demoCompleted]

/-- The list value of a field, empty when missing or not a list. -/
def listFieldD (kvs : List (String × PyVal)) (k : String) : List PyVal :=
  match dget kvs k with
  | some (.list l) => l
  | _ => []

theorem dget_dset (kvs : List (String × PyVal)) (k k' : String) (v : PyVal) :
    dget (dset kvs k v) k' = if k = k' then some v else dget kvs k' := by
  induction kvs with
  | nil => simp [dget, dset]
  | cons kv rest ih =>
      obtain ⟨a, b⟩ := kv
      by_cases h : a = k
      · subst h
        simp only [dset, if_pos rfl, dget]
        by_cases h' : a = k'
        · simp [h']
        · simp [h']
      · simp only [dset, if_neg h, dget]
        by_cases h' : a = k'
        · subst h'
          rw [if_pos rfl, if_neg (fun hk => h hk.symm), if_pos rfl]
        · rw [if_neg h', if_neg h', ih]

theorem appendToListField_eq {kvs : List (String × PyVal)} {k : String} {v : PyVal}
    {kvs' : List (String × PyVal)} (h : appendToListField kvs k v = some kvs') :
    kvs' = dset kvs k (.list (listFieldD kvs k ++ [v])) := by
  unfold appendToListField at h
  unfold listFieldD
  cases hg : dget kvs k with
  | none => rw [hg] at h; simp at h; simp [← h]
  | some w =>
      rw [hg] at h
      cases w with
      | list xs => simp at h; simp [← h]
      | none => simp at h
      | bool b => simp at h
      | num q => simp at h
      | str s => simp at h
      | dict d => simp at h

theorem idMatches_dict {v : PyVal} {tid : String} (h : idMatches v tid = true) :
    ∃ kvs, v = .dict kvs := by
  cases v with
  | dict kvs => exact ⟨kvs, rfl⟩
  | none => simp [idMatches] at h
  | bool b => simp [idMatches] at h
  | num q => simp [idMatches] at h
  | str s => simp [idMatches] at h
  | list l => simp [idMatches] at h

theorem findIdxOpt_some {p : PyVal → Bool} :
    ∀ {l : List PyVal} {i : Nat}, findIdxOpt p l = some i →
      ∃ a, l[i]? = some a ∧ p a = true := by
  intro l
  induction l with
  | nil => intro i h; simp [findIdxOpt] at h
  | cons a t ih =>
      intro i h
      unfold findIdxOpt at h
      by_cases hp : p a
      · rw [if_pos hp] at h
        cases h
        exact ⟨a, by simp, hp⟩
      · rw [if_neg hp] at h
        cases hq : findIdxOpt p t with
        | none => rw [hq] at h; simp at h
        | some j =>
            rw [hq] at h
            simp at h
            obtain ⟨b, hb, hpb⟩ := ih hq
            subst h
            exact ⟨b, by simpa using hb, hpb⟩

theorem findIdxOpt_set_congr {p : PyVal → Bool} {x y : PyVal} :
    ∀ {l : List PyVal} {i : Nat}, l[i]? = some y → p x = p y →
      findIdxOpt p (l.set i x) = findIdxOpt p l := by
  intro l
  induction l with
  | nil => intro i h _; simp at h
  | cons a t ih =>
      intro i h hpx
      cases i with
      | zero =>
          simp at h
          subst h
          simp [findIdxOpt, hpx]
      | succ j =>
          simp at h
          simp [findIdxOpt, ih h hpx]

theorem getElem?_lt {l : List PyVal} {i : Nat} {a : PyVal} (h : l[i]? = some a) :
    i < l.length := by
  by_contra hge
  rw [List.getElem?_eq_none (Nat.le_of_not_lt hge)] at h
  cases h

theorem appendFilesLoop_dget :
    ∀ {files : List (Option String)} {kvs kvs1 : List (String × PyVal)}
      {ps : List String}, appendFilesLoop files kvs = some (ps, kvs1) →
      ∀ k', k' ≠ "attachments" → dget kvs1 k' = dget kvs k' := by
  intro files
  induction files with
  | nil =>
      intro kvs kvs1 ps h k' hk
      simp [appendFilesLoop] at h
      rw [h.2]
  | cons f rest ih =>
      intro kvs kvs1 ps h k' hk
      cases f with
      | none => exact ih h k' hk
      | some p =>
          unfold appendFilesLoop at h
          cases hc : pyContains (dgetD kvs "attachments" (.list [])) p with
          | none => rw [hc] at h; exact absurd h (by simp)
          | some c =>
              rw [hc] at h
              cases c with
              | true =>
                  dsimp only at h
                  cases hr : appendFilesLoop rest kvs with
                  | none => rw [hr] at h; exact absurd h (by simp)
                  | some pr =>
                      obtain ⟨ps0, kvs0⟩ := pr
                      rw [hr] at h
                      simp at h
                      rw [← h.2]
                      exact ih hr k' hk
              | false =>
                  dsimp only at h
                  cases ha : appendToListField kvs "attachments" (.str p) with
                  | none => rw [ha] at h; exact absurd h (by simp)
                  | some kvsA =>
                      rw [ha] at h
                      dsimp only at h
                      cases hr : appendFilesLoop rest kvsA with
                      | none => rw [hr] at h; exact absurd h (by simp)
                      | some pr =>
                          obtain ⟨ps0, kvs0⟩ := pr
                          rw [hr] at h
                          simp at h
                          rw [← h.2, ih hr k' hk, appendToListField_eq ha,
                              dget_dset]
                          rw [if_neg (fun he => hk he.symm)]

theorem appendHistoryFields_eq {a c : String} {fs : List (Option String)}
    {now : String} {kvs kvs' : List (String × PyVal)}
    (h : appendHistoryFields a c fs now kvs = some kvs') :
    ∃ ps kvs1, appendFilesLoop fs kvs = some (ps, kvs1) ∧
      (∀ k', k' ≠ "attachments" → dget kvs1 k' = dget kvs k') ∧
      kvs' = dset (dset kvs1 "comment_history"
        (.list (listFieldD kvs "comment_history" ++ [mkEntry a c (ps.map PyVal.str) now])))
        "updated_at" (.str now) := by
  unfold appendHistoryFields at h
  cases hl : appendFilesLoop fs kvs with
  | none => rw [hl] at h; exact absurd h (by simp)
  | some pr =>
      obtain ⟨ps, kvs1⟩ := pr
      rw [hl] at h
      dsimp only at h
      cases ha : appendToListField kvs1 "comment_history" (mkEntry a c (ps.map PyVal.str) now) with
      | none => rw [ha] at h; exact absurd h (by simp)
      | some kvs2 =>
          rw [ha] at h
          dsimp only at h
          cases h
          refine ⟨ps, kvs1, rfl, appendFilesLoop_dget hl, ?_⟩
          rw [appendToListField_eq ha]
          have : listFieldD kvs1 "comment_history" = listFieldD kvs "comment_history" := by
            unfold listFieldD
            rw [appendFilesLoop_dget hl "comment_history" (by decide)]
          rw [this]

theorem appendHistoryFields_dget_other {a c : String} {fs : List (Option String)}
    {now : String} {kvs kvs' : List (String × PyVal)}
    (h : appendHistoryFields a c fs now kvs = some kvs') (k' : String)
    (h1 : k' ≠ "comment_history") (h2 : k' ≠ "attachments") (h3 : k' ≠ "updated_at") :
    dget kvs' k' = dget kvs k' := by
  obtain ⟨ps, kvs1, _, hpres, heq⟩ := appendHistoryFields_eq h
  subst heq
  rw [dget_dset, if_neg (fun he => h3 he.symm), dget_dset,
      if_neg (fun he => h1 he.symm), hpres k' h2]

theorem appendHistoryFields_hist {a c : String} {fs : List (Option String)}
    {now : String} {kvs kvs' : List (String × PyVal)}
    (h : appendHistoryFields a c fs now kvs = some kvs') :
    ∃ ps : List String, dget kvs' "comment_history" =
      some (.list (listFieldD kvs "comment_history" ++ [mkEntry a c (ps.map PyVal.str) now])) := by
  obtain ⟨ps, kvs1, _, hpres, heq⟩ := appendHistoryFields_eq h
  subst heq
  refine ⟨ps, ?_⟩
  rw [dget_dset, if_neg (by decide), dget_dset, if_pos rfl]

theorem appendHistoryFields_updated {a c : String} {fs : List (Option String)}
    {now : String} {kvs kvs' : List (String × PyVal)}
    (h : appendHistoryFields a c fs now kvs = some kvs') :
    dget kvs' "updated_at" = some (.str now) := by
  obtain ⟨ps, kvs1, _, hpres, heq⟩ := appendHistoryFields_eq h
  subst heq
  rw [dget_dset, if_pos rfl]

theorem appendHistoryFields_nil {a c now : String} {kvs kvs' : List (String × PyVal)}
    (h : appendHistoryFields a c [] now kvs = some kvs') :
    kvs' = dset (dset kvs "comment_history"
      (.list (listFieldD kvs "comment_history" ++ [mkEntry a c [] now])))
      "updated_at" (.str now) := by
  obtain ⟨ps, kvs1, hl, hpres, heq⟩ := appendHistoryFields_eq h
  have hl' : ([] : List String) = ps ∧ kvs = kvs1 := by
    have hx := hl
    simp only [appendFilesLoop, Option.some.injEq, Prod.mk.injEq] at hx
    exact hx
  obtain ⟨hps, hkvs⟩ := hl'
  subst hps
  subst hkvs
  simpa using heq

theorem opOnItem_found {f : List (String × PyVal) → Option (List (String × PyVal))}
    {n : Nat} {tid : String} {items : List PyVal} {i : Nat} {kvs : List (String × PyVal)}
    (hf : findIdxOpt (fun it => idMatches it tid) items = some i)
    (hg : items[i]? = some (.dict kvs)) :
    opOnItem f n tid items = (f kvs).map (fun kvs' => (items.set i (.dict kvs'), n)) := by
  unfold opOnItem
  rw [hf]
  dsimp only
  rw [hg]

theorem opOnItem_eq {f : List (String × PyVal) → Option (List (String × PyVal))}
    {n : Nat} {tid : String} {items s' : List PyVal} {m : Nat}
    (h : opOnItem f n tid items = some (s', m)) :
    (findIdxOpt (fun it => idMatches it tid) items = Option.none ∧ s' = items ∧ m = 0) ∨
    ∃ i kvs kvs', findIdxOpt (fun it => idMatches it tid) items = some i ∧
      items[i]? = some (.dict kvs) ∧ f kvs = some kvs' ∧
      s' = items.set i (.dict kvs') ∧ m = n := by
  unfold opOnItem at h
  cases hf : findIdxOpt (fun it => idMatches it tid) items with
  | none => rw [hf] at h; simp at h; exact Or.inl ⟨rfl, h.1.symm, h.2.symm⟩
  | some i =>
      rw [hf] at h
      dsimp only at h
      obtain ⟨a, hga, hpa⟩ := findIdxOpt_some hf
      obtain ⟨kvs, hkvs⟩ := idMatches_dict hpa
      subst hkvs
      rw [hga] at h
      dsimp only at h
      cases hfk : f kvs with
      | none => rw [hfk] at h; exact absurd h (by simp)
      | some kvs' =>
          rw [hfk] at h
          simp at h
          exact Or.inr ⟨i, kvs, kvs', rfl, hga, hfk, h.1.symm, h.2.symm⟩

theorem getElem?_set_self_of {l : List PyVal} {i : Nat} {a : PyVal}
    (h : i < l.length) : (l.set i a)[i]? = some a := by
  simp [List.getElem?_set_self', h]

theorem idMatches_found {tid : String} {items : List PyVal} {i : Nat}
    {kvs : List (String × PyVal)}
    (hf : findIdxOpt (fun it => idMatches it tid) items = some i)
    (hg : items[i]? = some (.dict kvs)) : idMatches (.dict kvs) tid = true := by
  obtain ⟨a, hga, hpa⟩ := findIdxOpt_some hf
  rw [hg] at hga
  cases hga
  exact hpa

theorem idMatches_congr {kvs kvs' : List (String × PyVal)} {tid : String}
    (h : dget kvs' "id" = dget kvs "id") :
    idMatches (.dict kvs') tid = idMatches (.dict kvs) tid := by
  simp [idMatches, h]

theorem requestReviewFields_dget_id {c now : String} {kvs : List (String × PyVal)} :
    dget (requestReviewFields c now kvs) "id" = dget kvs "id" := by
  simp [requestReviewFields, dget_dset]

theorem approveFields_dget_id {now : String} {kvs : List (String × PyVal)} :
    dget (approveFields now kvs) "id" = dget kvs "id" := by
  simp [approveFields, dget_dset]

theorem revokeFields_dget_id {kvs : List (String × PyVal)} :
    dget (revokeFields kvs) "id" = dget kvs "id" := by
  simp [revokeFields, dget_dset]

theorem request_review_found {items : List PyVal} {tid c : String}
    {fs : List (Option String)} {now : String} {i : Nat} {kvs : List (String × PyVal)}
    (hf : findIdxOpt (fun it => idMatches it tid) items = some i)
    (hg : items[i]? = some (.dict kvs)) :
    request_review items tid c fs now =
      (appendHistoryFields "owner" c fs now (requestReviewFields c now kvs)).map
        (fun kvs2 => (items.set i (.dict kvs2), 2)) := by
  unfold request_review
  rw [hf]
  dsimp only
  rw [hg]
  dsimp only
  have hpx : idMatches (.dict (requestReviewFields c now kvs)) tid =
      idMatches (.dict kvs) tid := idMatches_congr requestReviewFields_dget_id
  have hfind1 : findIdxOpt (fun it => idMatches it tid)
      (items.set i (.dict (requestReviewFields c now kvs))) = some i := by
    rw [findIdxOpt_set_congr hg hpx, hf]
  have hg1 : (items.set i (.dict (requestReviewFields c now kvs)))[i]? =
      some (.dict (requestReviewFields c now kvs)) :=
    getElem?_set_self_of (getElem?_lt hg)
  rw [append_history, opOnItem_found hfind1 hg1]
  cases hA : appendHistoryFields "owner" c fs now (requestReviewFields c now kvs) with
  | none => simp
  | some kvs2 => simp [List.set_set]

theorem submit_back_found {items : List PyVal} {tid c : String}
    {fs : List (Option String)} {hoursArg rateArg : Option ℚ} {now : String}
    {i : Nat} {kvs : List (String × PyVal)}
    (hf : findIdxOpt (fun it => idMatches it tid) items = some i)
    (hg : items[i]? = some (.dict kvs)) :
    submit_back_to_owner items tid c fs hoursArg rateArg now =
      (appendHistoryFields "dev" c fs now kvs).map
        (fun kvs1 => (items.set i (.dict (submitBackFields c hoursArg rateArg now kvs1)), 2)) := by
  unfold submit_back_to_owner
  rw [hf]
  dsimp only
  rw [hg]
  dsimp only
  rw [append_history, opOnItem_found hf hg]
  cases hA : appendHistoryFields "dev" c fs now kvs with
  | none => simp
  | some kvs1 =>
      have hg1 : (items.set i (.dict kvs1))[i]? = some (.dict kvs1) :=
        getElem?_set_self_of (getElem?_lt hg)
      simp only [Option.map_some']
      rw [hg1]
      simp [List.set_set]

theorem approve_found {items : List PyVal} {tid now : String}
    {i : Nat} {kvs : List (String × PyVal)}
    (hf : findIdxOpt (fun it => idMatches it tid) items = some i)
    (hg : items[i]? = some (.dict kvs)) :
    approve_item items tid now =
      (appendHistoryFields "owner" "Approved" [] now (approveFields now kvs)).map
        (fun kvs2 => (items.set i (.dict (dset kvs2 "updated_at" (.str now))), 2)) := by
  unfold approve_item
  rw [hf]
  dsimp only
  rw [hg]
  dsimp only
  have hpx : idMatches (.dict (approveFields now kvs)) tid =
      idMatches (.dict kvs) tid := idMatches_congr approveFields_dget_id
  have hfind1 : findIdxOpt (fun it => idMatches it tid)
      (items.set i (.dict (approveFields now kvs))) = some i := by
    rw [findIdxOpt_set_congr hg hpx, hf]
  have hg1 : (items.set i (.dict (approveFields now kvs)))[i]? =
      some (.dict (approveFields now kvs)) :=
    getElem?_set_self_of (getElem?_lt hg)
  rw [append_history, opOnItem_found hfind1 hg1]
  cases hA : appendHistoryFields "owner" "Approved" [] now (approveFields now kvs) with
  | none => simp
  | some kvs2 =>
      simp only [Option.map_some', List.set_set]
      rw [getElem?_set_self_of (by simpa using getElem?_lt hg)]

theorem revoke_found {items : List PyVal} {tid now : String}
    {i : Nat} {kvs : List (String × PyVal)}
    (hf : findIdxOpt (fun it => idMatches it tid) items = some i)
    (hg : items[i]? = some (.dict kvs)) :
    revoke_approval items tid now =
      (appendHistoryFields "owner" "Revoked approval" [] now (revokeFields kvs)).map
        (fun kvs2 => (items.set i (.dict (dset kvs2 "updated_at" (.str now))), 2)) := by
  unfold revoke_approval
  rw [hf]
  dsimp only
  rw [hg]
  dsimp only
  have hpx : idMatches (.dict (revokeFields kvs)) tid =
      idMatches (.dict kvs) tid := idMatches_congr revokeFields_dget_id
  have hfind1 : findIdxOpt (fun it => idMatches it tid)
      (items.set i (.dict (revokeFields kvs))) = some i := by
    rw [findIdxOpt_set_congr hg hpx, hf]
  have hg1 : (items.set i (.dict (revokeFields kvs)))[i]? =
      some (.dict (revokeFields kvs)) :=
    getElem?_set_self_of (getElem?_lt hg)
  rw [append_history, opOnItem_found hfind1 hg1]
  cases hA : appendHistoryFields "owner" "Revoked approval" [] now (revokeFields kvs) with
  | none => simp
  | some kvs2 =>
      simp only [Option.map_some', List.set_set]
      rw [getElem?_set_self_of (by simpa using getElem?_lt hg)]

theorem submitHoursRate_dget_other {hoursArg rateArg : Option ℚ}
    {kvs : List (String × PyVal)} (k' : String)
    (h1 : k' ≠ "hours") (h2 : k' ≠ "rate_at_completion") :
    dget (submitHoursRate hoursArg rateArg kvs) k' = dget kvs k' := by
  unfold submitHoursRate
  cases hoursArg with
  | none =>
      cases rateArg with
      | none => rfl
      | some r => rw [dget_dset, if_neg (fun he => h2 he.symm)]
  | some h =>
      cases rateArg with
      | none => rw [dget_dset, if_neg (fun he => h1 he.symm)]
      | some r =>
          rw [dget_dset, if_neg (fun he => h2 he.symm),
              dget_dset, if_neg (fun he => h1 he.symm)]

theorem submitRecompute_dget_other {kvs : List (String × PyVal)} (k' : String)
    (h1 : k' ≠ "amount") : dget (submitRecompute kvs) k' = dget kvs k' := by
  unfold submitRecompute
  by_cases hc : (isNotNone (dget kvs "hours") && isNotNone (dget kvs "rate_at_completion")) = true
  · rw [if_pos hc]
    cases hh : pyFloat (dgetD kvs "hours" PyVal.none) with
    | none => rfl
    | some h =>
        cases hr : pyFloat (dgetD kvs "rate_at_completion" PyVal.none) with
        | none => rfl
        | some r => rw [dget_dset, if_neg (fun he => h1 he.symm)]
  · rw [if_neg hc]

theorem submitRecompute_amount {kvs : List (String × PyVal)} {h r : ℚ}
    (hh : dget kvs "hours" = some (.num h))
    (hr : dget kvs "rate_at_completion" = some (.num r)) :
    submitRecompute kvs = dset kvs "amount" (.num (round2 (h * r))) := by
  unfold submitRecompute
  rw [hh, hr]
  unfold dgetD
  rw [hh, hr]
  simp [isNotNone, pyFloat]

theorem submitBackFields_dget_hours {c : String} {hoursArg rateArg : Option ℚ}
    {now : String} {kvs : List (String × PyVal)} :
    dget (submitBackFields c hoursArg rateArg now kvs) "hours" =
      dget (submitHoursRate hoursArg rateArg
        (dset (dset kvs "dev_response_comments" (.str c)) "dev_response_at" (.str now))) "hours" := by
  unfold submitBackFields
  simp only [dget_dset, String.reduceEq, reduceIte]
  rw [submitRecompute_dget_other "hours" (by decide)]

theorem submitBackFields_dget_rate {c : String} {hoursArg rateArg : Option ℚ}
    {now : String} {kvs : List (String × PyVal)} :
    dget (submitBackFields c hoursArg rateArg now kvs) "rate_at_completion" =
      dget (submitHoursRate hoursArg rateArg
        (dset (dset kvs "dev_response_comments" (.str c)) "dev_response_at" (.str now))) "rate_at_completion" := by
  unfold submitBackFields
  simp only [dget_dset, String.reduceEq, reduceIte]
  rw [submitRecompute_dget_other "rate_at_completion" (by decide)]

theorem submitBackFields_amount {c : String} {hoursArg rateArg : Option ℚ}
    {now : String} {kvs : List (String × PyVal)} {h r : ℚ}
    (hh : dget (submitBackFields c hoursArg rateArg now kvs) "hours" = some (.num h))
    (hr : dget (submitBackFields c hoursArg rateArg now kvs) "rate_at_completion" = some (.num r)) :
    dget (submitBackFields c hoursArg rateArg now kvs) "amount" =
      some (.num (round2 (h * r))) := by
  rw [submitBackFields_dget_hours] at hh
  rw [submitBackFields_dget_rate] at hr
  unfold submitBackFields
  simp only [dget_dset, String.reduceEq, reduceIte]
  rw [submitRecompute_amount hh hr, dget_dset, if_pos rfl]

theorem submitBackFields_dget_status {c : String} {hoursArg rateArg : Option ℚ}
    {now : String} {kvs : List (String × PyVal)} :
    dget (submitBackFields c hoursArg rateArg now kvs) "status" = some (.str "completed") := by
  unfold submitBackFields
  simp [dget_dset]

theorem submitBackFields_dget_review {c : String} {hoursArg rateArg : Option ℚ}
    {now : String} {kvs : List (String × PyVal)} :
    dget (submitBackFields c hoursArg rateArg now kvs) "review_requested" = some (.bool false) := by
  unfold submitBackFields
  simp [dget_dset]

theorem submitBackFields_dget_completed_at {c : String} {hoursArg rateArg : Option ℚ}
    {now : String} {kvs : List (String × PyVal)} :
    dget (submitBackFields c hoursArg rateArg now kvs) "completed_at" = some (.str now) := by
  unfold submitBackFields
  simp [dget_dset]

theorem submitBackFields_dget_archived {c : String} {hoursArg rateArg : Option ℚ}
    {now : String} {kvs : List (String × PyVal)} :
    dget (submitBackFields c hoursArg rateArg now kvs) "archived" = some (.bool true) := by
  unfold submitBackFields
  simp [dget_dset]

theorem requestReviewFields_dget_status {c now : String} {kvs : List (String × PyVal)} :
    dget (requestReviewFields c now kvs) "status" = some (.str "inprogress") := by
  simp [requestReviewFields, dget_dset]

theorem requestReviewFields_dget_review {c now : String} {kvs : List (String × PyVal)} :
    dget (requestReviewFields c now kvs) "review_requested" = some (.bool true) := by
  simp [requestReviewFields, dget_dset]

theorem requestReviewFields_dget_completed_at {c now : String} {kvs : List (String × PyVal)} :
    dget (requestReviewFields c now kvs) "completed_at" = dget kvs "completed_at" := by
  simp [requestReviewFields, dget_dset]

theorem completeFields_eq {hours rate : ℚ} {now : String}
    {kvs kvs' : List (String × PyVal)}
    (h : completeFields hours rate now kvs = some kvs') :
    ∃ base : List (String × PyVal),
      kvs' = dset base "comment_history"
        (.list (listFieldD base "comment_history" ++
          [mkEntry "dev" ("Completed by developer: " ++ pyFloatRepr hours ++ "h @ " ++ pyFloatRepr rate) [] now])) ∧
      base = (dset (dset (dset (dset (dset (dset (dset (dset (dset (dset (dset (dset (dset kvs
        "hours" (.num hours)) "status" (.str "completed")) "completed_at" (.str now))
        "updated_at" (.str now)) "rate_at_completion" (.num rate))
        "amount" (.num (round2 (hours * rate)))) "archived" (.bool true))
        "owner_approved" (.bool false)) "owner_approved_at" PyVal.none)
        "owner_approved_by" PyVal.none) "review_requested" (.bool false))
        "review_comments" (.str "")) "review_requested_at" PyVal.none) := by
  unfold completeFields at h
  exact ⟨_, appendToListField_eq h, rfl⟩

theorem completeFields_dget_archived {hours rate : ℚ} {now : String}
    {kvs kvs' : List (String × PyVal)} (h : completeFields hours rate now kvs = some kvs') :
    dget kvs' "archived" = some (.bool true) := by
  obtain ⟨base, hk, hb⟩ := completeFields_eq h
  subst hb
  subst hk
  simp only [dget_dset, String.reduceEq, reduceIte]

theorem completeFields_dget_amount {hours rate : ℚ} {now : String}
    {kvs kvs' : List (String × PyVal)} (h : completeFields hours rate now kvs = some kvs') :
    dget kvs' "amount" = some (.num (round2 (hours * rate))) := by
  obtain ⟨base, hk, hb⟩ := completeFields_eq h
  subst hb
  subst hk
  simp only [dget_dset, String.reduceEq, reduceIte]

theorem completeFields_dget_status {hours rate : ℚ} {now : String}
    {kvs kvs' : List (String × PyVal)} (h : completeFields hours rate now kvs = some kvs') :
    dget kvs' "status" = some (.str "completed") := by
  obtain ⟨base, hk, hb⟩ := completeFields_eq h
  subst hb
  subst hk
  simp only [dget_dset, String.reduceEq, reduceIte]

theorem completeFields_dget_completed_at {hours rate : ℚ} {now : String}
    {kvs kvs' : List (String × PyVal)} (h : completeFields hours rate now kvs = some kvs') :
    dget kvs' "completed_at" = some (.str now) := by
  obtain ⟨base, hk, hb⟩ := completeFields_eq h
  subst hb
  subst hk
  simp only [dget_dset, String.reduceEq, reduceIte]

theorem approveFields_dget_status {now : String} {kvs : List (String × PyVal)} :
    dget (approveFields now kvs) "status" = dget kvs "status" := by
  simp [approveFields, dget_dset]

theorem approveFields_dget_archived {now : String} {kvs : List (String × PyVal)} :
    dget (approveFields now kvs) "archived" = dget kvs "archived" := by
  simp [approveFields, dget_dset]

/-- C3: for every collection holding an item with the given id, a successful
request_review leaves that item with status "inprogress" and
review_requested true, and a successful submit_back_to_owner leaves it with
status "completed" and review_requested false. -/
theorem review_transitions_status :
    (∀ (items : List PyVal) (tid c : String) (fs : List (Option String))
        (now : String) (s' : List PyVal) (n i : Nat),
        request_review items tid c fs now = some (s', n) →
        findIdxOpt (fun it => idMatches it tid) items = some i →
        ∃ kvs', s'[i]? = some (.dict kvs') ∧
          dget kvs' "status" = some (.str "inprogress") ∧
          dget kvs' "review_requested" = some (.bool true)) ∧
    (∀ (items : List PyVal) (tid c : String) (fs : List (Option String))
        (hoursArg rateArg : Option ℚ) (now : String) (s' : List PyVal) (n i : Nat),
        submit_back_to_owner items tid c fs hoursArg rateArg now = some (s', n) →
        findIdxOpt (fun it => idMatches it tid) items = some i →
        ∃ kvs', s'[i]? = some (.dict kvs') ∧
          dget kvs' "status" = some (.str "completed") ∧
          dget kvs' "review_requested" = some (.bool false)) := by
  constructor
  · intro items tid c fs now s' n i hop hf
    obtain ⟨a, hga, hpa⟩ := findIdxOpt_some hf
    obtain ⟨kvs, rfl⟩ := idMatches_dict hpa
    rw [request_review_found hf hga] at hop
    cases hA : appendHistoryFields "owner" c fs now (requestReviewFields c now kvs) with
    | none => rw [hA] at hop; exact absurd hop (by simp)
    | some kvs2 =>
        rw [hA] at hop
        simp only [Option.map_some', Option.some.injEq, Prod.mk.injEq] at hop
        refine ⟨kvs2, ?_, ?_, ?_⟩
        · rw [← hop.1]
          exact getElem?_set_self_of (getElem?_lt hga)
        · rw [appendHistoryFields_dget_other hA _ (by decide) (by decide) (by decide),
              requestReviewFields_dget_status]
        · rw [appendHistoryFields_dget_other hA _ (by decide) (by decide) (by decide),
              requestReviewFields_dget_review]
  · intro items tid c fs hoursArg rateArg now s' n i hop hf
    obtain ⟨a, hga, hpa⟩ := findIdxOpt_some hf
    obtain ⟨kvs, rfl⟩ := idMatches_dict hpa
    rw [submit_back_found hf hga] at hop
    cases hA : appendHistoryFields "dev" c fs now kvs with
    | none => rw [hA] at hop; exact absurd hop (by simp)
    | some kvs1 =>
        rw [hA] at hop
        simp only [Option.map_some', Option.some.injEq, Prod.mk.injEq] at hop
        refine ⟨submitBackFields c hoursArg rateArg now kvs1, ?_, ?_, ?_⟩
        · rw [← hop.1]
          exact getElem?_set_self_of (getElem?_lt hga)
        · exact submitBackFields_dget_status
        · exact submitBackFields_dget_review

theorem review_transitions_status_witness :
    ∃ (s1 : List PyVal) (n1 : Nat) (kvs1 : List (String × PyVal))
      (s2 : List PyVal) (n2 : Nat) (kvs2 : List (String × PyVal)),
      request_review demoItems2 "b" "hi" [] "T1" = some (s1, n1) ∧
      s1[0]? = some (.dict kvs1) ∧
      dget kvs1 "status" = some (.str "inprogress") ∧
      dget kvs1 "review_requested" = some (.bool true) ∧
      submit_back_to_owner demoItems1 "a" "done" [] (some 3) (some 80) "T2" = some (s2, n2) ∧
      s2[0]? = some (.dict kvs2) ∧
      dget kvs2 "status" = some (.str "completed") ∧
      dget kvs2 "review_requested" = some (.bool false) := by
  obtain ⟨kvs1, h1, h2, h3⟩ :=
    review_transitions_status.1 demoItems2 "b" "hi" [] "T1" _ _ 0 rfl rfl
  obtain ⟨kvs2, g1, g2, g3⟩ :=
    review_transitions_status.2 demoItems1 "a" "done" [] (some 3) (some 80) "T2" _ _ 0 rfl rfl
  exact ⟨_, _, kvs1, _, _, kvs2, rfl, h1, h2, h3, rfl, g1, g2, g3⟩

/-- C9: this revision auto-archives on completion — set_hours_and_complete
and submit_back_to_owner always set archived true on the target item — while
approve_item changes neither status nor archived. -/
theorem archive_policy :
    (∀ (items : List PyVal) (tid : String) (hours rate : ℚ) (now : String)
        (s' : List PyVal) (n i : Nat),
        set_hours_and_complete items tid hours rate now = some (s', n) →
        findIdxOpt (fun it => idMatches it tid) items = some i →
        ∃ kvs', s'[i]? = some (.dict kvs') ∧
          dget kvs' "archived" = some (.bool true)) ∧
    (∀ (items : List PyVal) (tid c : String) (fs : List (Option String))
        (hoursArg rateArg : Option ℚ) (now : String) (s' : List PyVal) (n i : Nat),
        submit_back_to_owner items tid c fs hoursArg rateArg now = some (s', n) →
        findIdxOpt (fun it => idMatches it tid) items = some i →
        ∃ kvs', s'[i]? = some (.dict kvs') ∧
          dget kvs' "archived" = some (.bool true)) ∧
    (∀ (items : List PyVal) (tid now : String) (s' : List PyVal) (n i : Nat)
        (kvs : List (String × PyVal)),
        approve_item items tid now = some (s', n) →
        findIdxOpt (fun it => idMatches it tid) items = some i →
        items[i]? = some (.dict kvs) →
        ∃ kvs', s'[i]? = some (.dict kvs') ∧
          dget kvs' "status" = dget kvs "status" ∧
          dget kvs' "archived" = dget kvs "archived") := by
  refine ⟨?_, ?_, ?_⟩
  · intro items tid hours rate now s' n i hop hf
    obtain ⟨a, hga, hpa⟩ := findIdxOpt_some hf
    obtain ⟨kvs, rfl⟩ := idMatches_dict hpa
    rw [set_hours_and_complete, opOnItem_found hf hga] at hop
    cases hC : completeFields hours rate now kvs with
    | none => rw [hC] at hop; exact absurd hop (by simp)
    | some kvs' =>
        rw [hC] at hop
        simp only [Option.map_some', Option.some.injEq, Prod.mk.injEq] at hop
        refine ⟨kvs', ?_, completeFields_dget_archived hC⟩
        rw [← hop.1]
        exact getElem?_set_self_of (getElem?_lt hga)
  · intro items tid c fs hoursArg rateArg now s' n i hop hf
    obtain ⟨a, hga, hpa⟩ := findIdxOpt_some hf
    obtain ⟨kvs, rfl⟩ := idMatches_dict hpa
    rw [submit_back_found hf hga] at hop
    cases hA : appendHistoryFields "dev" c fs now kvs with
    | none => rw [hA] at hop; exact absurd hop (by simp)
    | some kvs1 =>
        rw [hA] at hop
        simp only [Option.map_some', Option.some.injEq, Prod.mk.injEq] at hop
        refine ⟨submitBackFields c hoursArg rateArg now kvs1, ?_,
          submitBackFields_dget_archived⟩
        rw [← hop.1]
        exact getElem?_set_self_of (getElem?_lt hga)
  · intro items tid now s' n i kvs hop hf hg
    rw [approve_found hf hg] at hop
    cases hA : appendHistoryFields "owner" "Approved" [] now (approveFields now kvs) with
    | none => rw [hA] at hop; exact absurd hop (by simp)
    | some kvs2 =>
        rw [hA] at hop
        simp only [Option.map_some', Option.some.injEq, Prod.mk.injEq] at hop
        refine ⟨dset kvs2 "updated_at" (.str now), ?_, ?_, ?_⟩
        · rw [← hop.1]
          exact getElem?_set_self_of (getElem?_lt hg)
        · rw [dget_dset, if_neg (by decide),
              appendHistoryFields_dget_other hA _ (by decide) (by decide) (by decide),
              approveFields_dget_status]
        · rw [dget_dset, if_neg (by decide),
              appendHistoryFields_dget_other hA _ (by decide) (by decide) (by decide),
              approveFields_dget_archived]

theorem archive_policy_witness :
    ∃ (s1 : List PyVal) (n1 : Nat) (kvs1 : List (String × PyVal))
      (s2 : List PyVal) (n2 : Nat) (kvs2 : List (String × PyVal))
      (s3 : List PyVal) (n3 : Nat) (kvs3 : List (String × PyVal)),
      set_hours_and_complete demoItems1 "a" 2 75 "T1" = some (s1, n1) ∧
      s1[0]? = some (.dict kvs1) ∧ dget kvs1 "archived" = some (.bool true) ∧
      submit_back_to_owner demoItems1 "a" "done" [] Option.none Option.none "T2" = some (s2, n2) ∧
      s2[0]? = some (.dict kvs2) ∧ dget kvs2 "archived" = some (.bool true) ∧
      approve_item demoItems2 "b" "T3" = some (s3, n3) ∧
      s3[0]? = some (.dict kvs3) ∧
      dget kvs3 "status" = some (.str "completed") ∧
      dget kvs3 "archived" = Option.none := by
  obtain ⟨kvs1, h1, h2⟩ := archive_policy.1 demoItems1 "a" 2 75 "T1" _ _ 0 rfl rfl
  obtain ⟨kvs2, g1, g2⟩ :=
    archive_policy.2.1 demoItems1 "a" "done" [] Option.none Option.none "T2" _ _ 0 rfl rfl
  obtain ⟨kvs3, f1, f2, f3⟩ := archive_policy.2.2 demoItems2 "b" "T3" _ _ 0 _ rfl rfl rfl
  refine ⟨_, _, kvs1, _, _, kvs2, _, _, kvs3, rfl, h1, h2, rfl, g1, g2, rfl, f1, ?_, ?_⟩
  · rw [f2]; rfl
  · rw [f3]; rfl

/-- C4: a successful set_hours_and_complete stores amount = round(h * r, 2)
exactly, and after a successful submit_back_to_owner the stored amount equals
round(hours * rate_at_completion, 2) whenever both stored fields are
numbers. -/
theorem amount_invariant :
    (∀ (items : List PyVal) (tid : String) (hours rate : ℚ) (now : String)
        (s' : List PyVal) (n i : Nat),
        set_hours_and_complete items tid hours rate now = some (s', n) →
        findIdxOpt (fun it => idMatches it tid) items = some i →
        ∃ kvs', s'[i]? = some (.dict kvs') ∧
          dget kvs' "amount" = some (.num (round2 (hours * rate)))) ∧
    (∀ (items : List PyVal) (tid c : String) (fs : List (Option String))
        (hoursArg rateArg : Option ℚ) (now : String) (s' : List PyVal) (n i : Nat)
        (h r : ℚ),
        submit_back_to_owner items tid c fs hoursArg rateArg now = some (s', n) →
        findIdxOpt (fun it => idMatches it tid) items = some i →
        fieldOf s'[i]? "hours" = some (.num h) →
        fieldOf s'[i]? "rate_at_completion" = some (.num r) →
        fieldOf s'[i]? "amount" = some (.num (round2 (h * r)))) := by
  constructor
  · intro items tid hours rate now s' n i hop hf
    obtain ⟨a, hga, hpa⟩ := findIdxOpt_some hf
    obtain ⟨kvs, rfl⟩ := idMatches_dict hpa
    rw [set_hours_and_complete, opOnItem_found hf hga] at hop
    cases hC : completeFields hours rate now kvs with
    | none => rw [hC] at hop; exact absurd hop (by simp)
    | some kvs' =>
        rw [hC] at hop
        simp only [Option.map_some', Option.some.injEq, Prod.mk.injEq] at hop
        refine ⟨kvs', ?_, completeFields_dget_amount hC⟩
        rw [← hop.1]
        exact getElem?_set_self_of (getElem?_lt hga)
  · intro items tid c fs hoursArg rateArg now s' n i h r hop hf hh hr
    obtain ⟨a, hga, hpa⟩ := findIdxOpt_some hf
    obtain ⟨kvs, rfl⟩ := idMatches_dict hpa
    rw [submit_back_found hf hga] at hop
    cases hA : appendHistoryFields "dev" c fs now kvs with
    | none => rw [hA] at hop; exact absurd hop (by simp)
    | some kvs1 =>
        rw [hA] at hop
        simp only [Option.map_some', Option.some.injEq, Prod.mk.injEq] at hop
        have hgot : s'[i]? = some (.dict (submitBackFields c hoursArg rateArg now kvs1)) := by
          rw [← hop.1]
          exact getElem?_set_self_of (getElem?_lt hga)
        rw [hgot] at hh hr ⊢
        unfold fieldOf at hh hr ⊢
        exact submitBackFields_amount hh hr

theorem amount_invariant_witness :
    (∃ (s1 : List PyVal) (n1 : Nat) (kvs1 : List (String × PyVal)),
      set_hours_and_complete demoItems1 "a" (5/2) 80 "T1" = some (s1, n1) ∧
      s1[0]? = some (.dict kvs1) ∧
      dget kvs1 "amount" = some (.num 200)) ∧
    (∃ (s2 : List PyVal) (n2 : Nat),
      submit_back_to_owner demoItems1 "a" "done" [] (some 3) (some 80) "T2" = some (s2, n2) ∧
      fieldOf s2[0]? "amount" = some (.num 240)) := by
  constructor
  · obtain ⟨kvs1, h1, h2⟩ := amount_invariant.1 demoItems1 "a" (5/2) 80 "T1" _ _ 0 rfl rfl
    refine ⟨_, _, kvs1, rfl, h1, ?_⟩
    rw [h2]
    have : round2 (5 / 2 * 80) = 200 := by norm_num [round2, roundHalfEven]
    rw [this]
  · have h2 := amount_invariant.2 demoItems1 "a" "done" [] (some 3) (some 80) "T2" _ _ 0
      3 80 rfl rfl rfl rfl
    refine ⟨_, _, rfl, ?_⟩
    rw [h2]
    have : round2 (3 * 80) = 240 := by norm_num [round2, roundHalfEven]
    rw [this]

theorem setStatusFields_status {ns now : String} {kvs : List (String × PyVal)} :
    dget (setStatusFields ns now kvs) "status" = some (.str ns) := by
  unfold setStatusFields
  by_cases h : ns ≠ "completed"
  · rw [if_pos h]
    simp [dget_dset]
  · rw [if_neg h]
    simp [dget_dset]

theorem setStatusFields_completed_at_cleared {ns now : String}
    {kvs : List (String × PyVal)} (h : ns ≠ "completed") :
    dget (setStatusFields ns now kvs) "completed_at" = some PyVal.none := by
  unfold setStatusFields
  rw [if_pos h, dget_dset, if_pos rfl]

theorem setStatusFields_completed_at_kept {now : String} {kvs : List (String × PyVal)} :
    dget (setStatusFields "completed" now kvs) "completed_at" = dget kvs "completed_at" := by
  unfold setStatusFields
  rw [if_neg (by simp)]
  simp [dget_dset]

/-- C5 counterexample: on a completed item carrying completed_at
"2024-01-01T10:00:00", request_review moves status to "inprogress" but leaves
completed_at unchanged (not null); and set_status to "completed" leaves
completed_at null instead of setting it. -/
theorem completed_at_claim_counterexample :
    (∃ (s1 : List PyVal) (n1 : Nat) (kvs1 : List (String × PyVal)),
      request_review demoItems2 "b" "needs work" [] "T9" = some (s1, n1) ∧
      s1[0]? = some (.dict kvs1) ∧
      dget kvs1 "status" = some (.str "inprogress") ∧
      dget kvs1 "completed_at" = some (.str "2024-01-01T10:00:00") ∧
      (PyVal.str "2024-01-01T10:00:00" = PyVal.none → False)) ∧
    (∃ (s2 : List PyVal) (n2 : Nat) (kvs2 : List (String × PyVal)),
      set_status demoItems1 "a" "completed" "T9" = some (s2, n2) ∧
      s2[0]? = some (.dict kvs2) ∧
      dget kvs2 "status" = some (.str "completed") ∧
      dget kvs2 "completed_at" = some PyVal.none) := by
  constructor
  · exact ⟨_, _, _, rfl, rfl, rfl, rfl, fun h => PyVal.noConfusion h⟩
  · exact ⟨_, _, _, rfl, rfl, rfl, rfl⟩

/-- C5 amended: set_status to a non-completed status clears completed_at,
while request_review moves status to "inprogress" without touching
completed_at; set_hours_and_complete and submit_back_to_owner stamp
completed_at, while set_status to "completed" leaves it unchanged. -/
theorem completed_at_policy :
    (∀ (items : List PyVal) (tid ns now : String) (s' : List PyVal) (n i : Nat),
        ns ≠ "completed" →
        set_status items tid ns now = some (s', n) →
        findIdxOpt (fun it => idMatches it tid) items = some i →
        ∃ kvs', s'[i]? = some (.dict kvs') ∧
          dget kvs' "completed_at" = some PyVal.none) ∧
    (∀ (items : List PyVal) (tid now : String) (s' : List PyVal) (n i : Nat)
        (kvs : List (String × PyVal)),
        set_status items tid "completed" now = some (s', n) →
        findIdxOpt (fun it => idMatches it tid) items = some i →
        items[i]? = some (.dict kvs) →
        ∃ kvs', s'[i]? = some (.dict kvs') ∧
          dget kvs' "completed_at" = dget kvs "completed_at") ∧
    (∀ (items : List PyVal) (tid c : String) (fs : List (Option String))
        (now : String) (s' : List PyVal) (n i : Nat) (kvs : List (String × PyVal)),
        request_review items tid c fs now = some (s', n) →
        findIdxOpt (fun it => idMatches it tid) items = some i →
        items[i]? = some (.dict kvs) →
        ∃ kvs', s'[i]? = some (.dict kvs') ∧
          dget kvs' "status" = some (.str "inprogress") ∧
          dget kvs' "completed_at" = dget kvs "completed_at") ∧
    (∀ (items : List PyVal) (tid : String) (hours rate : ℚ) (now : String)
        (s' : List PyVal) (n i : Nat),
        set_hours_and_complete items tid hours rate now = some (s', n) →
        findIdxOpt (fun it => idMatches it tid) items = some i →
        ∃ kvs', s'[i]? = some (.dict kvs') ∧
          dget kvs' "completed_at" = some (.str now)) ∧
    (∀ (items : List PyVal) (tid c : String) (fs : List (Option String))
        (hoursArg rateArg : Option ℚ) (now : String) (s' : List PyVal) (n i : Nat),
        submit_back_to_owner items tid c fs hoursArg rateArg now = some (s', n) →
        findIdxOpt (fun it => idMatches it tid) items = some i →
        ∃ kvs', s'[i]? = some (.dict kvs') ∧
          dget kvs' "completed_at" = some (.str now)) := by
  refine ⟨?_, ?_, ?_, ?_, ?_⟩
  · intro items tid ns now s' n i hns hop hf
    obtain ⟨a, hga, hpa⟩ := findIdxOpt_some hf
    obtain ⟨kvs, rfl⟩ := idMatches_dict hpa
    rw [set_status, opOnItem_found hf hga] at hop
    simp only [Option.map_some', Option.some.injEq, Prod.mk.injEq] at hop
    refine ⟨setStatusFields ns now kvs, ?_, setStatusFields_completed_at_cleared hns⟩
    rw [← hop.1]
    exact getElem?_set_self_of (getElem?_lt hga)
  · intro items tid now s' n i kvs hop hf hg
    rw [set_status, opOnItem_found hf hg] at hop
    simp only [Option.map_some', Option.some.injEq, Prod.mk.injEq] at hop
    refine ⟨setStatusFields "completed" now kvs, ?_, setStatusFields_completed_at_kept⟩
    rw [← hop.1]
    exact getElem?_set_self_of (getElem?_lt hg)
  · intro items tid c fs now s' n i kvs hop hf hg
    rw [request_review_found hf hg] at hop
    cases hA : appendHistoryFields "owner" c fs now (requestReviewFields c now kvs) with
    | none => rw [hA] at hop; exact absurd hop (by simp)
    | some kvs2 =>
        rw [hA] at hop
        simp only [Option.map_some', Option.some.injEq, Prod.mk.injEq] at hop
        refine ⟨kvs2, ?_, ?_, ?_⟩
        · rw [← hop.1]
          exact getElem?_set_self_of (getElem?_lt hg)
        · rw [appendHistoryFields_dget_other hA _ (by decide) (by decide) (by decide),
              requestReviewFields_dget_status]
        · rw [appendHistoryFields_dget_other hA _ (by decide) (by decide) (by decide),
              requestReviewFields_dget_completed_at]
  · intro items tid hours rate now s' n i hop hf
    obtain ⟨a, hga, hpa⟩ := findIdxOpt_some hf
    obtain ⟨kvs, rfl⟩ := idMatches_dict hpa
    rw [set_hours_and_complete, opOnItem_found hf hga] at hop
    cases hC : completeFields hours rate now kvs with
    | none => rw [hC] at hop; exact absurd hop (by simp)
    | some kvs' =>
        rw [hC] at hop
        simp only [Option.map_some', Option.some.injEq, Prod.mk.injEq] at hop
        refine ⟨kvs', ?_, completeFields_dget_completed_at hC⟩
        rw [← hop.1]
        exact getElem?_set_self_of (getElem?_lt hga)
  · intro items tid c fs hoursArg rateArg now s' n i hop hf
    obtain ⟨a, hga, hpa⟩ := findIdxOpt_some hf
    obtain ⟨kvs, rfl⟩ := idMatches_dict hpa
    rw [submit_back_found hf hga] at hop
    cases hA : appendHistoryFields "dev" c fs now kvs with
    | none => rw [hA] at hop; exact absurd hop (by simp)
    | some kvs1 =>
        rw [hA] at hop
        simp only [Option.map_some', Option.some.injEq, Prod.mk.injEq] at hop
        refine ⟨submitBackFields c hoursArg rateArg now kvs1, ?_,
          submitBackFields_dget_completed_at⟩
        rw [← hop.1]
        exact getElem?_set_self_of (getElem?_lt hga)

theorem completed_at_policy_witness :
    (∃ (s1 : List PyVal) (n1 : Nat) (kvs1 : List (String × PyVal)),
      set_status demoItems2 "b" "ready" "T5" = some (s1, n1) ∧
      s1[0]? = some (.dict kvs1) ∧ dget kvs1 "completed_at" = some PyVal.none) ∧
    (∃ (s2 : List PyVal) (n2 : Nat) (kvs2 : List (String × PyVal)),
      request_review demoItems2 "b" "again" [] "T6" = some (s2, n2) ∧
      s2[0]? = some (.dict kvs2) ∧ dget kvs2 "status" = some (.str "inprogress") ∧
      dget kvs2 "completed_at" = some (.str "2024-01-01T10:00:00")) ∧
    (∃ (s3 : List PyVal) (n3 : Nat) (kvs3 : List (String × PyVal)),
      set_hours_and_complete demoItems1 "a" 1 10 "T7" = some (s3, n3) ∧
      s3[0]? = some (.dict kvs3) ∧ dget kvs3 "completed_at" = some (.str "T7")) := by
  refine ⟨?_, ?_, ?_⟩
  · obtain ⟨kvs1, h1, h2⟩ :=
      completed_at_policy.1 demoItems2 "b" "ready" "T5" _ _ 0 (by decide) rfl rfl
    exact ⟨_, _, kvs1, rfl, h1, h2⟩
  · obtain ⟨kvs2, h1, h2, h3⟩ :=
      completed_at_policy.2.2.1 demoItems2 "b" "again" [] "T6" _ _ 0 _ rfl rfl rfl
    refine ⟨_, _, kvs2, rfl, h1, h2, ?_⟩
    rw [h3]
    rfl
  · obtain ⟨kvs3, h1, h2⟩ :=
      completed_at_policy.2.2.2.1 demoItems1 "a" 1 10 "T7" _ _ 0 rfl rfl
    exact ⟨_, _, kvs3, rfl, h1, h2⟩

theorem approve_step_dget {now : String} {kvs kvs2 : List (String × PyVal)}
    (hA : appendHistoryFields "owner" "Approved" [] now (approveFields now kvs) = some kvs2)
    (k : String) (h1 : k ≠ "owner_approved_at") (h2 : k ≠ "updated_at")
    (h3 : k ≠ "comment_history") :
    dget (dset kvs2 "updated_at" (.str now)) k =
      if k = "owner_approved" then some (.bool true)
      else if k = "owner_approved_by" then some PyVal.none
      else dget kvs k := by
  rw [appendHistoryFields_nil hA]
  by_cases hoa : k = "owner_approved"
  · subst hoa
    simp [approveFields, dget_dset]
  · by_cases hoby : k = "owner_approved_by"
    · subst hoby
      simp [approveFields, dget_dset]
    · rw [if_neg hoa, if_neg hoby,
          dget_dset, if_neg (fun he => h2 he.symm),
          dget_dset, if_neg (fun he => h2 he.symm),
          dget_dset, if_neg (fun he => h3 he.symm)]
      unfold approveFields
      rw [dget_dset, if_neg (fun he => hoby he.symm),
          dget_dset, if_neg (fun he => h1 he.symm),
          dget_dset, if_neg (fun he => hoa he.symm)]

theorem approveFields_dget_hist {now : String} {kvs : List (String × PyVal)} :
    dget (approveFields now kvs) "comment_history" = dget kvs "comment_history" := by
  simp [approveFields, dget_dset]

/-- C8: re-approving an already-approved item keeps owner_approved true and
every non-history, non-timestamp field unchanged, while appending exactly one
more "Approved" owner entry to the comment history. -/
theorem approve_retry_effect :
    ∀ (items : List PyVal) (tid now1 now2 : String) (s1 : List PyVal) (n1 i : Nat)
      (s2 : List PyVal) (n2 : Nat),
      approve_item items tid now1 = some (s1, n1) →
      findIdxOpt (fun it => idMatches it tid) items = some i →
      approve_item s1 tid now2 = some (s2, n2) →
      ∃ kvs1 kvs2, s1[i]? = some (.dict kvs1) ∧ s2[i]? = some (.dict kvs2) ∧
        dget kvs1 "owner_approved" = some (.bool true) ∧
        dget kvs2 "owner_approved" = some (.bool true) ∧
        (∀ k, k ≠ "owner_approved_at" → k ≠ "updated_at" → k ≠ "comment_history" →
          dget kvs2 k = dget kvs1 k) ∧
        listFieldD kvs2 "comment_history" =
          listFieldD kvs1 "comment_history" ++ [mkEntry "owner" "Approved" [] now2] := by
  intro items tid now1 now2 s1 n1 i s2 n2 hop1 hf hop2
  obtain ⟨a, hga, hpa⟩ := findIdxOpt_some hf
  obtain ⟨kvs, rfl⟩ := idMatches_dict hpa
  rw [approve_found hf hga] at hop1
  cases hA1 : appendHistoryFields "owner" "Approved" [] now1 (approveFields now1 kvs) with
  | none => rw [hA1] at hop1; exact absurd hop1 (by simp)
  | some kvsB1 =>
      rw [hA1] at hop1
      simp only [Option.map_some', Option.some.injEq, Prod.mk.injEq] at hop1
      set kvs1 : List (String × PyVal) := dset kvsB1 "updated_at" (.str now1) with hkvs1
      have hs1 : s1 = items.set i (.dict kvs1) := hop1.1.symm
      have hg1 : s1[i]? = some (.dict kvs1) := by
        rw [hs1]
        exact getElem?_set_self_of (getElem?_lt hga)
      have hid1 : dget kvs1 "id" = dget kvs "id" := by
        rw [hkvs1, approve_step_dget hA1 "id" (by decide) (by decide) (by decide)]
        simp
      have hf1 : findIdxOpt (fun it => idMatches it tid) s1 = some i := by
        rw [hs1, findIdxOpt_set_congr hga (idMatches_congr hid1), hf]
      rw [approve_found hf1 hg1] at hop2
      cases hA2 : appendHistoryFields "owner" "Approved" [] now2 (approveFields now2 kvs1) with
      | none => rw [hA2] at hop2; exact absurd hop2 (by simp)
      | some kvsB2 =>
          rw [hA2] at hop2
          simp only [Option.map_some', Option.some.injEq, Prod.mk.injEq] at hop2
          set kvs2' : List (String × PyVal) := dset kvsB2 "updated_at" (.str now2) with hkvs2
          have hg2 : s2[i]? = some (.dict kvs2') := by
            rw [← hop2.1]
            exact getElem?_set_self_of (by rw [hs1]; simpa using getElem?_lt hga)
          have happ1 : dget kvs1 "owner_approved" = some (.bool true) := by
            rw [hkvs1, approve_step_dget hA1 "owner_approved" (by decide) (by decide) (by decide)]
            simp
          have happ2 : dget kvs2' "owner_approved" = some (.bool true) := by
            rw [hkvs2, approve_step_dget hA2 "owner_approved" (by decide) (by decide) (by decide)]
            simp
          refine ⟨kvs1, kvs2', hg1, hg2, happ1, happ2, ?_, ?_⟩
          · intro k k1 k2 k3
            rw [hkvs2, approve_step_dget hA2 k k1 k2 k3]
            by_cases hoa : k = "owner_approved"
            · subst hoa
              rw [if_pos rfl, happ1]
            · by_cases hoby : k = "owner_approved_by"
              · subst hoby
                rw [if_neg (by decide), if_pos rfl, hkvs1,
                    approve_step_dget hA1 "owner_approved_by" (by decide) (by decide) (by decide)]
                simp
              · rw [if_neg hoa, if_neg hoby, hkvs1, approve_step_dget hA1 k k1 k2 k3,
                    if_neg hoa, if_neg hoby]
          · unfold listFieldD
            have hch2 : dget kvs2' "comment_history" =
                some (.list (listFieldD kvs1 "comment_history" ++ [mkEntry "owner" "Approved" [] now2])) := by
              rw [hkvs2, appendHistoryFields_nil hA2, dget_dset, if_neg (by decide),
                  dget_dset, if_neg (by decide), dget_dset, if_pos rfl]
              have : listFieldD (approveFields now2 kvs1) "comment_history" =
                  listFieldD kvs1 "comment_history" := by
                unfold listFieldD
                rw [approveFields_dget_hist]
              rw [this]
            rw [hch2]
            rfl

/-- C2 evidence (code bug): set_hours_and_complete performs no validation —
called with hours = 0 it completes and archives the item, stores
amount = round(0 * 50, 2), and performs one save_data call, where the spec
demands rejection with no mutation and no persistence (the operation does not
even take the comment the spec wants validated). -/
theorem complete_zero_hours_accepted :
    ∃ (s' : List PyVal) (kvs' : List (String × PyVal)),
      set_hours_and_complete demoItems1 "a" 0 50 "T1" = some (s', 1) ∧
      s'[0]? = some (.dict kvs') ∧
      dget kvs' "status" = some (.str "completed") ∧
      dget kvs' "hours" = some (.num 0) ∧
      dget kvs' "amount" = some (.num (round2 (0 * 50))) ∧
      dget kvs' "archived" = some (.bool true) := by
  exact ⟨_, _, rfl, rfl, rfl, rfl, rfl, rfl⟩

theorem approve_retry_effect_witness :
    ∃ (s1 : List PyVal) (n1 : Nat) (s2 : List PyVal) (n2 : Nat)
      (kvs1 kvs2 : List (String × PyVal)),
      approve_item demoItems2 "b" "TA" = some (s1, n1) ∧
      approve_item s1 "b" "TB" = some (s2, n2) ∧
      s1[0]? = some (.dict kvs1) ∧ s2[0]? = some (.dict kvs2) ∧
      dget kvs2 "owner_approved" = some (.bool true) ∧
      dget kvs2 "status" = dget kvs1 "status" ∧
      listFieldD kvs2 "comment_history" =
        listFieldD kvs1 "comment_history" ++ [mkEntry "owner" "Approved" [] "TB"] := by
  obtain ⟨kvs1, kvs2, hg1, hg2, ha1, ha2, hall, hh⟩ :=
    approve_retry_effect demoItems2 "b" "TA" "TB" _ _ 0 _ _ rfl rfl rfl
  exact ⟨_, _, _, _, kvs1, kvs2, rfl, rfl, hg1, hg2, ha2,
    hall "status" (by decide) (by decide) (by decide), hh⟩

theorem histListV_dict (kvs : List (String × PyVal)) :
    histListV (.dict kvs) = listFieldD kvs "comment_history" := rfl

theorem completeFields_dget_id {hours rate : ℚ} {now : String}
    {kvs kvs' : List (String × PyVal)} (h : completeFields hours rate now kvs = some kvs') :
    dget kvs' "id" = dget kvs "id" := by
  obtain ⟨base, hk, hb⟩ := completeFields_eq h
  subst hb
  subst hk
  simp only [dget_dset, String.reduceEq, reduceIte]

theorem completeFields_hist {hours rate : ℚ} {now : String}
    {kvs kvs' : List (String × PyVal)} (h : completeFields hours rate now kvs = some kvs') :
    ∃ e, listFieldD kvs' "comment_history" = listFieldD kvs "comment_history" ++ [e] := by
  obtain ⟨base, hk, hb⟩ := completeFields_eq h
  refine ⟨mkEntry "dev" ("Completed by developer: " ++ pyFloatRepr hours ++ "h @ " ++ pyFloatRepr rate) [] now, ?_⟩
  rw [hk]
  unfold listFieldD
  rw [dget_dset, if_pos rfl]
  have : dget base "comment_history" = dget kvs "comment_history" := by
    subst hb
    simp only [dget_dset, String.reduceEq, reduceIte]
  rw [hb] at this ⊢
  rw [this]


theorem appendHistoryFields_hist_append {a c : String} {fs : List (Option String)}
    {now : String} {kvs kvs' : List (String × PyVal)}
    (h : appendHistoryFields a c fs now kvs = some kvs') :
    ∃ e, listFieldD kvs' "comment_history" = listFieldD kvs "comment_history" ++ [e] := by
  obtain ⟨ps, hch⟩ := appendHistoryFields_hist h
  refine ⟨mkEntry a c (ps.map PyVal.str) now, ?_⟩
  unfold listFieldD
  rw [hch]
  rfl

theorem appendHistoryFields_dget_id {a c : String} {fs : List (Option String)}
    {now : String} {kvs kvs' : List (String × PyVal)}
    (h : appendHistoryFields a c fs now kvs = some kvs') :
    dget kvs' "id" = dget kvs "id" :=
  appendHistoryFields_dget_other h "id" (by decide) (by decide) (by decide)

theorem requestReviewFields_dget_ch {c now : String} {kvs : List (String × PyVal)} :
    dget (requestReviewFields c now kvs) "comment_history" = dget kvs "comment_history" := by
  simp [requestReviewFields, dget_dset]

theorem submitBackFields_dget_ch {c : String} {hoursArg rateArg : Option ℚ}
    {now : String} {kvs : List (String × PyVal)} :
    dget (submitBackFields c hoursArg rateArg now kvs) "comment_history" =
      dget kvs "comment_history" := by
  unfold submitBackFields
  simp only [dget_dset, String.reduceEq, reduceIte]
  rw [submitRecompute_dget_other _ (by decide),
      submitHoursRate_dget_other _ (by decide) (by decide),
      dget_dset, if_neg (by decide), dget_dset, if_neg (by decide)]

theorem submitBackFields_dget_id {c : String} {hoursArg rateArg : Option ℚ}
    {now : String} {kvs : List (String × PyVal)} :
    dget (submitBackFields c hoursArg rateArg now kvs) "id" = dget kvs "id" := by
  unfold submitBackFields
  simp only [dget_dset, String.reduceEq, reduceIte]
  rw [submitRecompute_dget_other _ (by decide),
      submitHoursRate_dget_other _ (by decide) (by decide),
      dget_dset, if_neg (by decide), dget_dset, if_neg (by decide)]

theorem revokeFields_dget_hist {kvs : List (String × PyVal)} :
    dget (revokeFields kvs) "comment_history" = dget kvs "comment_history" := by
  simp [revokeFields, dget_dset]

theorem tracked_after_set {s : List PyVal} {j : Nat} {kvs kvs' : List (String × PyVal)}
    (hg : s[j]? = some (.dict kvs)) (hid : dget kvs' "id" = dget kvs "id")
    (hext : ∃ l, listFieldD kvs' "comment_history" = listFieldD kvs "comment_history" ++ l)
    {t : String} {i : Nat} (hf : findIdxOpt (fun it => idMatches it t) s = some i) :
    findIdxOpt (fun it => idMatches it t) (s.set j (.dict kvs')) = some i ∧
    ∀ it, s[i]? = some it → ∃ it', (s.set j (.dict kvs'))[i]? = some it' ∧
      histListV it <+: histListV it' := by
  constructor
  · rw [findIdxOpt_set_congr hg (idMatches_congr hid), hf]
  · intro it hit
    by_cases hij : j = i
    · subst hij
      rw [hit] at hg
      cases hg
      refine ⟨.dict kvs', getElem?_set_self_of (getElem?_lt hit), ?_⟩
      obtain ⟨l, hl⟩ := hext
      rw [histListV_dict, histListV_dict, hl]
      exact List.prefix_append _ _
    · refine ⟨it, ?_, List.prefix_refl _⟩
      rw [List.getElem?_set_ne hij, hit]

theorem listFieldD_congr {kvs1 kvs2 : List (String × PyVal)} {k : String}
    (h : dget kvs1 k = dget kvs2 k) : listFieldD kvs1 k = listFieldD kvs2 k := by
  unfold listFieldD
  rw [h]

theorem prefix_getElem? {l1 l2 : List PyVal} (h : l1 <+: l2) {j : Nat} {e : PyVal}
    (hj : l1[j]? = some e) : l2[j]? = some e := by
  obtain ⟨u, rfl⟩ := h
  rw [List.getElem?_append, if_pos (getElem?_lt hj), hj]

theorem applyOp_step {s s' : List PyVal} {op : Op} (h : applyOp s op = some s')
    {t : String} {i : Nat} (hf : findIdxOpt (fun it => idMatches it t) s = some i) :
    findIdxOpt (fun it => idMatches it t) s' = some i ∧
    ∀ it, s[i]? = some it → ∃ it', s'[i]? = some it' ∧
      histListV it <+: histListV it' := by
  have triv : s' = s →
      findIdxOpt (fun it => idMatches it t) s' = some i ∧
      ∀ it, s[i]? = some it → ∃ it', s'[i]? = some it' ∧
        histListV it <+: histListV it' := by
    intro he
    subst he
    exact ⟨hf, fun it hit => ⟨it, hit, List.prefix_refl _⟩⟩
  cases op with
  | appendHist tid actor comment files now =>
      simp only [applyOp] at h
      cases hap : append_history s tid actor comment files now with
      | none => rw [hap] at h; exact absurd h (by simp)
      | some pr =>
          obtain ⟨s2, m2⟩ := pr
          rw [hap] at h
          simp only [Option.map_some', Option.some.injEq] at h
          obtain ⟨j, kvs, kvs', hfj, hgj, hA, hs, hm⟩ | hunch := (opOnItem_eq hap).symm
          · rw [← h, hs]
            refine tracked_after_set hgj (appendHistoryFields_dget_id hA) ?_ hf
            obtain ⟨e, he⟩ := appendHistoryFields_hist_append hA
            exact ⟨[e], he⟩
          · exact triv (by rw [← h, hunch.2.1])
  | complete tid hours rate now =>
      simp only [applyOp] at h
      cases hap : set_hours_and_complete s tid hours rate now with
      | none => rw [hap] at h; exact absurd h (by simp)
      | some pr =>
          obtain ⟨s2, m2⟩ := pr
          rw [hap] at h
          simp only [Option.map_some', Option.some.injEq] at h
          obtain ⟨j, kvs, kvs', hfj, hgj, hC, hs, hm⟩ | hunch := (opOnItem_eq hap).symm
          · rw [← h, hs]
            refine tracked_after_set hgj (completeFields_dget_id hC) ?_ hf
            obtain ⟨e, he⟩ := completeFields_hist hC
            exact ⟨[e], he⟩
          · exact triv (by rw [← h, hunch.2.1])
  | reqChanges tid comment files now =>
      simp only [applyOp] at h
      cases hfind : findIdxOpt (fun it => idMatches it tid) s with
      | none =>
          unfold request_review at h
          rw [hfind] at h
          simp only [Option.map_some', Option.some.injEq] at h
          exact triv h.symm
      | some j =>
          obtain ⟨a, hga, hpa⟩ := findIdxOpt_some hfind
          obtain ⟨kvs, rfl⟩ := idMatches_dict hpa
          rw [request_review_found hfind hga] at h
          cases hA : appendHistoryFields "owner" comment files now (requestReviewFields comment now kvs) with
          | none => rw [hA] at h; exact absurd h (by simp)
          | some kvs2 =>
              rw [hA] at h
              simp only [Option.map_some', Option.map_map, Option.some.injEq] at h
              rw [← h]
              refine tracked_after_set hga ?_ ?_ hf
              · rw [appendHistoryFields_dget_id hA, requestReviewFields_dget_id]
              · obtain ⟨e, he⟩ := appendHistoryFields_hist_append hA
                exact ⟨[e], by rw [he, listFieldD_congr (requestReviewFields_dget_ch)]⟩
  | submitBack tid comment files hoursArg rateArg now =>
      simp only [applyOp] at h
      cases hfind : findIdxOpt (fun it => idMatches it tid) s with
      | none =>
          unfold submit_back_to_owner at h
          rw [hfind] at h
          simp only [Option.map_some', Option.some.injEq] at h
          exact triv h.symm
      | some j =>
          obtain ⟨a, hga, hpa⟩ := findIdxOpt_some hfind
          obtain ⟨kvs, rfl⟩ := idMatches_dict hpa
          rw [submit_back_found hfind hga] at h
          cases hA : appendHistoryFields "dev" comment files now kvs with
          | none => rw [hA] at h; exact absurd h (by simp)
          | some kvs1 =>
              rw [hA] at h
              simp only [Option.map_some', Option.map_map, Option.some.injEq] at h
              rw [← h]
              refine tracked_after_set hga ?_ ?_ hf
              · rw [submitBackFields_dget_id, appendHistoryFields_dget_id hA]
              · obtain ⟨e, he⟩ := appendHistoryFields_hist_append hA
                refine ⟨[e], ?_⟩
                rw [listFieldD_congr (submitBackFields_dget_ch), he]
  | approve tid now =>
      simp only [applyOp] at h
      cases hfind : findIdxOpt (fun it => idMatches it tid) s with
      | none =>
          unfold approve_item at h
          rw [hfind] at h
          simp only [Option.map_some', Option.some.injEq] at h
          exact triv h.symm
      | some j =>
          obtain ⟨a, hga, hpa⟩ := findIdxOpt_some hfind
          obtain ⟨kvs, rfl⟩ := idMatches_dict hpa
          rw [approve_found hfind hga] at h
          cases hA : appendHistoryFields "owner" "Approved" [] now (approveFields now kvs) with
          | none => rw [hA] at h; exact absurd h (by simp)
          | some kvs2 =>
              rw [hA] at h
              simp only [Option.map_some', Option.map_map, Option.some.injEq] at h
              rw [← h]
              refine tracked_after_set hga ?_ ?_ hf
              · rw [dget_dset, if_neg (by decide), appendHistoryFields_dget_id hA,
                    approveFields_dget_id]
              · obtain ⟨e, he⟩ := appendHistoryFields_hist_append hA
                refine ⟨[e], ?_⟩
                have h1 : dget (dset kvs2 "updated_at" (.str now)) "comment_history" =
                    dget kvs2 "comment_history" := by
                  rw [dget_dset, if_neg (by decide)]
                rw [listFieldD_congr h1, he,
                    listFieldD_congr (approveFields_dget_hist)]
  | revoke tid now =>
      simp only [applyOp] at h
      cases hfind : findIdxOpt (fun it => idMatches it tid) s with
      | none =>
          unfold revoke_approval at h
          rw [hfind] at h
          simp only [Option.map_some', Option.some.injEq] at h
          exact triv h.symm
      | some j =>
          obtain ⟨a, hga, hpa⟩ := findIdxOpt_some hfind
          obtain ⟨kvs, rfl⟩ := idMatches_dict hpa
          rw [revoke_found hfind hga] at h
          cases hA : appendHistoryFields "owner" "Revoked approval" [] now (revokeFields kvs) with
          | none => rw [hA] at h; exact absurd h (by simp)
          | some kvs2 =>
              rw [hA] at h
              simp only [Option.map_some', Option.map_map, Option.some.injEq] at h
              rw [← h]
              refine tracked_after_set hga ?_ ?_ hf
              · rw [dget_dset, if_neg (by decide), appendHistoryFields_dget_id hA,
                    revokeFields_dget_id]
              · obtain ⟨e, he⟩ := appendHistoryFields_hist_append hA
                refine ⟨[e], ?_⟩
                have h1 : dget (dset kvs2 "updated_at" (.str now)) "comment_history" =
                    dget kvs2 "comment_history" := by
                  rw [dget_dset, if_neg (by decide)]
                rw [listFieldD_congr h1, he,
                    listFieldD_congr (revokeFields_dget_hist)]

/-- C7: the comment ledger is append-only — across any successful sequence of
engine operations, the first item with a given id keeps every previously
present comment_history entry at its position, its history only growing in
length (each old history list is a prefix of the new one). -/
theorem ledger_append_only :
    ∀ (ops : List Op) (s0 s1 : List PyVal) (t : String) (i : Nat),
      runOps s0 ops = some s1 →
      findIdxOpt (fun it => idMatches it t) s0 = some i →
      ∃ it0 it1, s0[i]? = some it0 ∧ s1[i]? = some it1 ∧
        histListV it0 <+: histListV it1 ∧
        (histListV it0).length ≤ (histListV it1).length ∧
        ∀ (j : Nat) (e : PyVal), (histListV it0)[j]? = some e →
          (histListV it1)[j]? = some e := by
  intro ops
  induction ops with
  | nil =>
      intro s0 s1 t i hrun hf
      have hs : s0 = s1 := by
        simpa [runOps, List.foldlM_nil] using hrun
      subst hs
      obtain ⟨a, hga, _⟩ := findIdxOpt_some hf
      exact ⟨a, a, hga, hga, List.prefix_refl _, le_refl _, fun j e hj => hj⟩
  | cons op rest ih =>
      intro s0 s1 t i hrun hf
      rw [runOps, List.foldlM_cons] at hrun
      cases happ : applyOp s0 op with
      | none => rw [happ] at hrun; exact absurd hrun (by simp)
      | some sMid =>
          rw [happ] at hrun
          simp only [Option.bind_eq_bind, Option.some_bind] at hrun
          obtain ⟨hfind1, hstep⟩ := applyOp_step happ hf
          obtain ⟨a, hga, _⟩ := findIdxOpt_some hf
          obtain ⟨aMid, hgaMid, hpre1⟩ := hstep a hga
          obtain ⟨it0m, it1, hg0m, hg1, hpre2, _, _⟩ := ih sMid s1 t i hrun hfind1
          rw [hgaMid] at hg0m
          cases hg0m
          refine ⟨a, it1, hga, hg1, hpre1.trans hpre2, (hpre1.trans hpre2).length_le,
            fun j e hj => prefix_getElem? (hpre1.trans hpre2) hj⟩

theorem ledger_append_only_witness :
    ∃ (s1 : List PyVal) (it0 it1 : PyVal),
      runOps demoItems2
        [Op.approve "b" "T1", Op.reqChanges "b" "fix" [] "T2",
         Op.submitBack "b" "done" [] (some 2) (some 50) "T3",
         Op.appendHist "b" "dev" "note" [] "T4"] = some s1 ∧
      demoItems2[0]? = some it0 ∧ s1[0]? = some it1 ∧
      histListV it0 <+: histListV it1 ∧
      (histListV it0).length ≤ (histListV it1).length := by
  obtain ⟨it0, it1, hg0, hg1, hpre, hlen, _⟩ :=
    ledger_append_only
      [Op.approve "b" "T1", Op.reqChanges "b" "fix" [] "T2",
       Op.submitBack "b" "done" [] (some 2) (some 50) "T3",
       Op.appendHist "b" "dev" "note" [] "T4"]
      demoItems2 _ "b" 0 rfl rfl
  exact ⟨_, it0, it1, rfl, hg0, hg1, hpre, hlen⟩

theorem statusNorm_spec (v : PyVal) :
    ∃ s : String, statusNorm v = .str s ∧
      (s = "ready" ∨ s = "inprogress" ∨ s = "completed") ∧
      (isValidStatus v = false → s = "ready") := by
  unfold statusNorm
  by_cases hv : isValidStatus v = true
  · rw [if_pos hv]
    cases v with
    | str s =>
        refine ⟨s, rfl, ?_, fun hc => absurd hv (by rw [hc]; simp)⟩
        have hv2 := hv
        simp only [isValidStatus, Bool.or_eq_true, decide_eq_true_eq] at hv2
        tauto
    | none => simp [isValidStatus] at hv
    | bool b => simp [isValidStatus] at hv
    | num q => simp [isValidStatus] at hv
    | list l => simp [isValidStatus] at hv
    | dict d => simp [isValidStatus] at hv
  · rw [if_neg hv]
    exact ⟨"ready", rfl, Or.inl rfl, fun _ => rfl⟩

theorem statusNorm_ready_of_invalid {kvs : List (String × PyVal)}
    (hraw : rawStatusValid (.dict kvs) = false) :
    statusNorm (pyOr (dgetD kvs "status" PyVal.none) (.str "ready")) = .str "ready" := by
  simp only [rawStatusValid] at hraw
  cases hdg : dget kvs "status" with
  | none => simp [dgetD, hdg, pyOr, truthy, statusNorm, isValidStatus]
  | some v =>
      rw [hdg] at hraw
      dsimp only at hraw
      unfold dgetD
      rw [hdg]
      simp only [Option.getD_some, pyOr]
      by_cases ht : truthy v = true
      · rw [if_pos ht]
        unfold statusNorm
        rw [if_neg (by simp [hraw])]
      · rw [if_neg ht]
        unfold statusNorm
        rw [if_pos (by simp [isValidStatus])]

/-- C10: a record produced by _coerce_item always carries a status in the
valid enum, and any input whose status is missing or invalid comes out as
"ready". -/
theorem status_coerced_to_enum :
    ∀ (fid now : String) (x y : PyVal), _coerce_item fid now x = some y →
      ∃ s : String, fieldOf (some y) "status" = some (.str s) ∧
        (s = "ready" ∨ s = "inprogress" ∨ s = "completed") ∧
        (rawStatusValid x = false → s = "ready") := by
  intro fid now x y h
  cases x with
  | dict kvs =>
      unfold _coerce_item at h
      dsimp only at h
      cases hN : normHistory now (chListOf kvs) with
      | none => rw [hN] at h; exact absurd h (by simp)
      | some normCh =>
          rw [hN] at h
          dsimp only at h
          cases hL : pyList (dgetD kvs "attachments" (.list [])) with
          | none => rw [hL] at h; exact absurd h (by simp)
          | some atts =>
              rw [hL] at h
              dsimp only at h
              cases h
              obtain ⟨s, hsn, hmem, himp⟩ :=
                statusNorm_spec (pyOr (dgetD kvs "status" PyVal.none) (.str "ready"))
              refine ⟨s, ?_, hmem, ?_⟩
              · simp only [fieldOf, dget, String.reduceEq, reduceIte]
                rw [hsn]
              · intro hraw
                have h2 := statusNorm_ready_of_invalid hraw
                rw [hsn] at h2
                cases h2
                rfl
  | none =>
      cases h
      exact ⟨"ready", rfl, Or.inl rfl, fun _ => rfl⟩
  | bool b =>
      cases h
      exact ⟨"ready", rfl, Or.inl rfl, fun _ => rfl⟩
  | num q =>
      cases h
      exact ⟨"ready", rfl, Or.inl rfl, fun _ => rfl⟩
  | str s0 =>
      cases h
      exact ⟨"ready", rfl, Or.inl rfl, fun _ => rfl⟩
  | list l =>
      cases h
      exact ⟨"ready", rfl, Or.inl rfl, fun _ => rfl⟩

theorem status_coerced_to_enum_witness :
    (∃ y, _coerce_item "u" "t" (.dict [("status", .str "weird"), ("title", .str "x")]) = some y ∧
      fieldOf (some y) "status" = some (.str "ready")) ∧
    (∃ y, _coerce_item "u" "t" (.dict [("status", .str "inprogress")]) = some y ∧
      fieldOf (some y) "status" = some (.str "inprogress")) := by
  constructor
  · obtain ⟨s, hst, hmem, himp⟩ :=
      status_coerced_to_enum "u" "t" (.dict [("status", .str "weird"), ("title", .str "x")]) _ rfl
    have hs : s = "ready" := himp rfl
    subst hs
    exact ⟨_, rfl, hst⟩
  · exact ⟨_, rfl, rfl⟩

/-- C6: load_data is fail-soft — a missing file or parse failure
(Option.none) and every parsed document whose shape is not one of the three
recognized ones yield the empty collection; the try/except in the model is
total, so no exception escapes. -/
theorem load_data_fail_soft :
    ∀ (fid now : String) (parsed : Option PyVal),
      (∀ raw, parsed = some raw → recognizedShape raw = false) →
      load_data fid now parsed = [] := by
  intro fid now parsed hbad
  cases parsed with
  | none => rfl
  | some raw =>
      have hb := hbad raw rfl
      cases raw with
      | none => rfl
      | bool b => rfl
      | num q => rfl
      | str s => rfl
      | list xs => simp [recognizedShape] at hb
      | dict kvs =>
          simp only [recognizedShape] at hb
          unfold load_data _normalize_loaded
          dsimp only
          cases hdg : dget kvs "items" with
          | none =>
              rw [hdg] at hb
              dsimp only at hb ⊢
              rw [if_neg (by simp [hb])]
              rfl
          | some v =>
              rw [hdg] at hb
              cases v with
              | list xs => simp at hb
              | none =>
                  dsimp only at hb ⊢
                  rw [if_neg (by simp [hb])]
                  rfl
              | bool b =>
                  dsimp only at hb ⊢
                  rw [if_neg (by simp [hb])]
                  rfl
              | num q =>
                  dsimp only at hb ⊢
                  rw [if_neg (by simp [hb])]
                  rfl
              | str s =>
                  dsimp only at hb ⊢
                  rw [if_neg (by simp [hb])]
                  rfl
              | dict d =>
                  dsimp only at hb ⊢
                  rw [if_neg (by simp [hb])]
                  rfl

theorem load_data_fail_soft_witness :
    load_data "u" "t" Option.none = [] ∧
    load_data "u" "t" (some (.str "garbage")) = [] ∧
    load_data "u" "t" (some (.dict [])) = [] ∧
    load_data "u" "t" (some (.dict [("x", .num 3)])) = [] := by
  refine ⟨?_, ?_, ?_, ?_⟩
  · exact load_data_fail_soft "u" "t" Option.none (fun raw h => by cases h)
  · exact load_data_fail_soft "u" "t" (some (.str "garbage"))
      (fun raw h => by cases h; rfl)
  · exact load_data_fail_soft "u" "t" (some (.dict []))
      (fun raw h => by cases h; rfl)
  · exact load_data_fail_soft "u" "t" (some (.dict [("x", .num 3)]))
      (fun raw h => by cases h; rfl)

theorem dropWhile_dropWhile (p : Char → Bool) (l : List Char) :
    (l.dropWhile p).dropWhile p = l.dropWhile p := by
  induction l with
  | nil => rfl
  | cons a t ih =>
      rw [List.dropWhile_cons]
      by_cases hp : p a
      · rw [if_pos hp, ih]
      · rw [if_neg hp, List.dropWhile_cons, if_neg hp]

theorem head_dropWhile_false (p : Char → Bool) (l : List Char) :
    ∀ a, (l.dropWhile p).head? = some a → p a = false := by
  induction l with
  | nil => intro a h; cases h
  | cons b t ih =>
      intro a h
      rw [List.dropWhile_cons] at h
      by_cases hp : p b
      · rw [if_pos hp] at h
        exact ih a h
      · rw [if_neg hp] at h
        cases h
        exact Bool.not_eq_true _ ▸ (by simpa using hp)

theorem dropWhile_eq_self_of_head (p : Char → Bool) (l : List Char)
    (h : ∀ a, l.head? = some a → p a = false) : l.dropWhile p = l := by
  cases l with
  | nil => rfl
  | cons a t =>
      rw [List.dropWhile_cons, if_neg]
      rw [h a rfl]
      simp

theorem stripChars_idem (l : List Char) : stripChars (stripChars l) = stripChars l := by
  unfold stripChars
  set m := l.dropWhile isPySpace with hm
  set r := (m.reverse.dropWhile isPySpace).reverse with hr
  have hpre : r <+: m := by
    have hsuf : m.reverse.dropWhile isPySpace <:+ m.reverse :=
      List.dropWhile_suffix _
    have := List.reverse_prefix.mpr hsuf
    rwa [List.reverse_reverse] at this
  have step1 : r.dropWhile isPySpace = r := by
    apply dropWhile_eq_self_of_head
    intro a ha
    obtain ⟨u, hu⟩ := hpre
    cases hcr : r with
    | nil => rw [hcr] at ha; cases ha
    | cons b t =>
        rw [hcr] at ha
        cases ha
        have hmhead : m.head? = some a := by
          rw [← hu, hcr]
          rfl
        exact head_dropWhile_false isPySpace l a hmhead
  have step2 : r.reverse.dropWhile isPySpace = r.reverse := by
    rw [hr, List.reverse_reverse]
    exact dropWhile_dropWhile _ _
  rw [step1, step2, List.reverse_reverse]

theorem pyStrip_idem (s : String) : pyStrip (pyStrip s) = pyStrip s := by
  unfold pyStrip
  rw [show (String.mk (stripChars s.data)).data = stripChars s.data from rfl,
      stripChars_idem]

theorem pyOr_of_truthy {a : PyVal} (h : truthy a = true) (d : PyVal) :
    pyOr a d = a := by
  unfold pyOr
  rw [if_pos h]

theorem truthy_pyOr {d : PyVal} (h : truthy d = true) (a : PyVal) :
    truthy (pyOr a d) = true := by
  unfold pyOr
  by_cases ha : truthy a = true
  · rw [if_pos ha]
    exact ha
  · rw [if_neg ha]
    exact h

theorem pyOr_pyOr_of_truthy {d : PyVal} (h : truthy d = true) (a d' : PyVal) :
    pyOr (pyOr a d) d' = pyOr a d :=
  pyOr_of_truthy (truthy_pyOr h a) d'

theorem pyOr_task (a d' : PyVal) :
    pyOr (pyOr a (.str "task")) d' = pyOr a (.str "task") :=
  pyOr_pyOr_of_truthy (by decide) a d'

theorem pyOr_now {now1 : String} (h : now1 ≠ "") (a d' : PyVal) :
    pyOr (pyOr a (.str now1)) d' = pyOr a (.str now1) :=
  pyOr_pyOr_of_truthy (by simpa [truthy] using h) a d'

theorem pyBool_pyBool (v : PyVal) : pyBool (pyBool v) = pyBool v := rfl

theorem pyOr_str_empty_default (c : String) : pyOr (.str c) (.str "") = .str c := by
  by_cases hc : c = ""
  · subst hc
    rfl
  · exact pyOr_of_truthy (by simpa [truthy] using hc) _

theorem pyOr_list_nil (xs : List PyVal) : pyOr (.list xs) (.list []) = .list xs := by
  cases xs with
  | nil => rfl
  | cons a t => rfl

theorem statusNorm_fix (v : PyVal) :
    statusNorm (pyOr (statusNorm v) (.str "ready")) = statusNorm v := by
  obtain ⟨s, hs, hmem, _⟩ := statusNorm_spec v
  rw [hs]
  have hne : s ≠ "" := by
    rcases hmem with h | h | h <;> subst h <;> decide
  rw [pyOr_of_truthy (by simpa [truthy] using hne)]
  unfold statusNorm
  rw [if_pos (by rcases hmem with h | h | h <;> subst h <;> decide)]

theorem normEntry_fix {now1 now2 : String} {ekvs : List (String × PyVal)} {e : PyVal}
    (h1 : now1 ≠ "") (h : normEntry now1 ekvs = some e) :
    ∃ ekvs', e = .dict ekvs' ∧ normEntry now2 ekvs' = some e := by
  unfold normEntry at h
  cases hL : pyList (pyOr (dgetD ekvs "attachments" (.list [])) (.list [])) with
  | none => rw [hL] at h; exact absurd h (by simp)
  | some atts =>
      rw [hL] at h
      dsimp only at h
      cases h
      refine ⟨_, rfl, ?_⟩
      unfold normEntry
      simp only [dgetD, dget, String.reduceEq, reduceIte, Option.getD_some]
      rw [pyOr_list_nil, pyList]
      dsimp only
      rw [pyStr, pyOr_str_empty_default, pyStr,
          pyOr_of_truthy (truthy_pyOr (by simpa [truthy] using h1) _)]

theorem normHistory_fix {now1 now2 : String} :
    ∀ {ch l : List PyVal}, now1 ≠ "" → normHistory now1 ch = some l →
      normHistory now2 l = some l := by
  intro ch
  induction ch with
  | nil =>
      intro l h1 h
      simp only [normHistory, Option.some.injEq] at h
      rw [← h]
      rfl
  | cons e rest ih =>
      intro l h1 h
      cases e with
      | dict ekvs =>
          unfold normHistory at h
          cases hE : normEntry now1 ekvs with
          | none => rw [hE] at h; exact absurd h (by simp)
          | some en =>
              rw [hE] at h
              dsimp only at h
              cases hR : normHistory now1 rest with
              | none => rw [hR] at h; exact absurd h (by simp)
              | some l' =>
                  rw [hR] at h
                  dsimp only at h
                  cases h
                  obtain ⟨ekvs', hen, hfix⟩ := normEntry_fix h1 hE
                  subst hen
                  unfold normHistory
                  rw [hfix]
                  dsimp only
                  rw [ih h1 hR]
      | none => exact ih h1 h
      | bool b => exact ih h1 h
      | num q => exact ih h1 h
      | str s => exact ih h1 h
      | list xs => exact ih h1 h

theorem coerce_item_fix {fid1 now1 fid2 now2 : String} {x y : PyVal}
    (h1 : now1 ≠ "") (h : _coerce_item fid1 now1 x = some y) :
    _coerce_item fid2 now2 y = some y := by
  have nonDict : _coerce_item fid2 now2 (.dict [
      ("id", .str fid1),
      ("type", pyOr (.str "task") (.str "task")),
      ("title", .str (pyStrip (pyStr (.str "")))),
      ("client", .str (pyStrip (pyStr (.str "")))),
      ("project", .str (pyStrip (pyStr (.str "")))),
      ("billable", pyBool (.bool true)),
      ("status", statusNorm (pyOr (.str "ready") (.str "ready"))),
      ("hours", PyVal.none),
      ("rate_at_completion", PyVal.none),
      ("amount", PyVal.none),
      ("created_at", pyOr (.str now1) (.str now1)),
      ("updated_at", pyOr (.str now1) (.str now1)),
      ("completed_at", PyVal.none),
      ("archived", pyBool (.bool false)),
      ("pr_url", .str (pyStrip (pyStr (.str "")))),
      ("owner_approved", pyBool (.bool false)),
      ("owner_approved_at", PyVal.none),
      ("owner_approved_by", PyVal.none),
      ("review_requested", pyBool (.bool false)),
      ("review_comments", .str (pyStrip (pyStr (.str "")))),
      ("review_requested_at", PyVal.none),
      ("dev_response_comments", .str (pyStrip (pyStr (.str "")))),
      ("dev_response_at", PyVal.none),
      ("attachments", .list []),
      ("comment_history", .list [])]) = some (.dict [
      ("id", .str fid1),
      ("type", pyOr (.str "task") (.str "task")),
      ("title", .str (pyStrip (pyStr (.str "")))),
      ("client", .str (pyStrip (pyStr (.str "")))),
      ("project", .str (pyStrip (pyStr (.str "")))),
      ("billable", pyBool (.bool true)),
      ("status", statusNorm (pyOr (.str "ready") (.str "ready"))),
      ("hours", PyVal.none),
      ("rate_at_completion", PyVal.none),
      ("amount", PyVal.none),
      ("created_at", pyOr (.str now1) (.str now1)),
      ("updated_at", pyOr (.str now1) (.str now1)),
      ("completed_at", PyVal.none),
      ("archived", pyBool (.bool false)),
      ("pr_url", .str (pyStrip (pyStr (.str "")))),
      ("owner_approved", pyBool (.bool false)),
      ("owner_approved_at", PyVal.none),
      ("owner_approved_by", PyVal.none),
      ("review_requested", pyBool (.bool false)),
      ("review_comments", .str (pyStrip (pyStr (.str "")))),
      ("review_requested_at", PyVal.none),
      ("dev_response_comments", .str (pyStrip (pyStr (.str "")))),
      ("dev_response_at", PyVal.none),
      ("attachments", .list []),
      ("comment_history", .list [])]) := by
    unfold _coerce_item
    simp only [chListOf, dgetD, dget, String.reduceEq, reduceIte, Option.getD_some]
    simp only [normHistory, pyList]
    simp only [pyStr, pyStrip_idem, pyBool_pyBool, pyOr_task, pyOr_now h1, statusNorm_fix]
  cases x with
  | dict kvs =>
      unfold _coerce_item at h
      dsimp only at h
      cases hN : normHistory now1 (chListOf kvs) with
      | none => rw [hN] at h; exact absurd h (by simp)
      | some normCh =>
          rw [hN] at h
          dsimp only at h
          cases hL : pyList (dgetD kvs "attachments" (.list [])) with
          | none => rw [hL] at h; exact absurd h (by simp)
          | some atts =>
              rw [hL] at h
              dsimp only at h
              cases h
              unfold _coerce_item
              simp only [chListOf, dgetD, dget, String.reduceEq, reduceIte, Option.getD_some]
              rw [normHistory_fix h1 hN]
              simp only [pyList, pyStr, pyStrip_idem, pyBool_pyBool, pyOr_task,
                pyOr_now h1, statusNorm_fix]
  | none => cases h; exact nonDict
  | bool b => cases h; exact nonDict
  | num q => cases h; exact nonDict
  | str s => cases h; exact nonDict
  | list xs => cases h; exact nonDict

/-- C1: normalization is idempotent.  The fresh uuid and clock strings of the
inner call are arbitrary (a second run may draw different ones); the only
assumption is that the first call's clock string is non-empty, which every
datetime isoformat() string is.  When the first _coerce_item raises, both
sides are the raised exception and the equation still holds. -/
theorem coerce_item_idempotent :
    ∀ (fid1 now1 fid2 now2 : String) (x : PyVal), now1 ≠ "" →
      (_coerce_item fid1 now1 x).bind (_coerce_item fid2 now2) =
        _coerce_item fid1 now1 x := by
  intro fid1 now1 fid2 now2 x h1
  cases h : _coerce_item fid1 now1 x with
  | none => rfl
  | some y =>
      rw [Option.some_bind]
      exact coerce_item_fix h1 h

theorem coerce_item_idempotent_witness :
    ("2024-05-05T12:00:00" ≠ "") ∧
    (_coerce_item "u1" "2024-05-05T12:00:00" (.num 3)).bind (_coerce_item "u2" "T2") =
      _coerce_item "u1" "2024-05-05T12:00:00" (.num 3) ∧
    (_coerce_item "u1" "2024-05-05T12:00:00" (.dict [])).bind (_coerce_item "u2" "T2") =
      _coerce_item "u1" "2024-05-05T12:00:00" (.dict []) ∧
    (_coerce_item "u1" "2024-05-05T12:00:00" demoCompleted).bind (_coerce_item "u2" "T2") =
      _coerce_item "u1" "2024-05-05T12:00:00" demoCompleted ∧
    (_coerce_item "u1" "2024-05-05T12:00:00"
        (.dict [("id", .str "z"), ("type", .str "defect"), ("title", .str " Fix bug "),
                ("client", .str "Acme"), ("project", .str "Web"), ("billable", .bool true),
                ("status", .str "completed"), ("hours", .num (5/2)), ("rate_at_completion", .num 80),
                ("amount", .num 200), ("created_at", .str "T0"), ("updated_at", .str "T0"),
                ("completed_at", .str "T0"), ("archived", .bool false), ("pr_url", .str ""),
                ("owner_approved", .bool false), ("owner_approved_at", PyVal.none),
                ("owner_approved_by", PyVal.none), ("review_requested", .bool false),
                ("review_comments", .str ""), ("review_requested_at", PyVal.none),
                ("dev_response_comments", .str ""), ("dev_response_at", PyVal.none),
                ("attachments", .list []),
                ("comment_history", .list [.dict [("actor", .str "system"),
                  ("comment", .str "Task created"), ("attachments", .list []),
                  ("at", .str "T0")]])])).bind (_coerce_item "u2" "T2") =
      _coerce_item "u1" "2024-05-05T12:00:00"
        (.dict [("id", .str "z"), ("type", .str "defect"), ("title", .str " Fix bug "),
                ("client", .str "Acme"), ("project", .str "Web"), ("billable", .bool true),
                ("status", .str "completed"), ("hours", .num (5/2)), ("rate_at_completion", .num 80),
                ("amount", .num 200), ("created_at", .str "T0"), ("updated_at", .str "T0"),
                ("completed_at", .str "T0"), ("archived", .bool false), ("pr_url", .str ""),
                ("owner_approved", .bool false), ("owner_approved_at", PyVal.none),
                ("owner_approved_by", PyVal.none), ("review_requested", .bool false),
                ("review_comments", .str ""), ("review_requested_at", PyVal.none),
                ("dev_response_comments", .str ""), ("dev_response_at", PyVal.none),
                ("attachments", .list []),
                ("comment_history", .list [.dict [("actor", .str "system"),
                  ("comment", .str "Task created"), ("attachments", .list []),
                  ("at", .str "T0")]])]) := by
  refine ⟨by decide, ?_, ?_, ?_, ?_⟩ <;>
    exact coerce_item_idempotent "u1" "2024-05-05T12:00:00" "u2" "T2" _ (by decide)
